import Mathlib

/-!
Verification development for the repository synchronization layer of the
tutor-ai-pwa application: a shallow embedding in Lean 4 of the repository
classes (generic Supabase-backed CRUD with local-storage fallback), the
specialized repositories (thread, message, lesson record, test set, project
service), the attachment signed-URL cache and the identifier generator,
together with theorems settling the stated properties of that layer.

Remote (Supabase) calls are external collaborators: each call site takes the
outcome of the call as an explicit parameter of type Except String,
mirroring the structured error objects the remote client returns.
Local storage is passed as an explicit list-valued store.
-/

namespace TutorAI

/-- JavaScript string-or-default: the expression a OR b for a possibly absent
string a, where the empty string counts as falsy (exactly the semantics of
the || operator used throughout the repositories). -/
def jsOrD : Option String → String → String
  | some s, d => if s = "" then d else s
  | none, d => d

/-- JavaScript truthiness test for a possibly absent string: absent and empty
strings are falsy. -/
def jsFalsyStr : Option String → Bool
  | none => true
  | some s => s == ""

/-- Lookup in a JavaScript Map modelled as an insertion-ordered association
list: the value stored under the first matching key. -/
def jsMapGet {β : Type} (m : List (String × β)) (k : String) : Option β :=
  (m.find? (fun e => e.1 == k)).map (fun e => e.2)

/-- JavaScript Map.set modelled on an insertion-ordered association list: an
existing key keeps its position and gets the new value, a new key is appended
at the end. -/
def jsMapSet {β : Type} (m : List (String × β)) (k : String) (v : β) : List (String × β) :=
  if m.any (fun e => e.1 == k) then
    m.map (fun e => if e.1 == k then (k, v) else e)
  else m ++ [(k, v)]

/-! ## Thread entity and rows (src/types/index.ts, thread.repository.ts) -/

/-- In-memory Thread entity with camelCase fields, from src/types/index.ts. -/
structure Thread where
  id : String
  userId : String
  projectId : String
  title : String
  createdAt : String
  updatedAt : String
deriving DecidableEq, Repr

/-- Sparse patch of a Thread: the Partial input that mapToSupabase receives;
an absent field is an absent key. -/
structure ThreadPatch where
  id : Option String := none
  userId : Option String := none
  projectId : Option String := none
  title : Option String := none
  createdAt : Option String := none
  updatedAt : Option String := none
deriving DecidableEq, Repr

/-- Sparse snake_case row payload sent to the remote store for threads; an
absent field means the key is not present in the payload object. -/
structure ThreadRowOut where
  id : Option String := none
  user_id : Option String := none
  project_id : Option String := none
  title : Option String := none
  created_at : Option String := none
  updated_at : Option String := none
deriving DecidableEq, Repr

/-- Full thread row as read back from the remote store (updated_at can be
absent, all other columns are populated). -/
structure ThreadRowIn where
  id : String
  user_id : String
  project_id : String
  title : String
  created_at : String
  updated_at : Option String := none
deriving DecidableEq, Repr

namespace ThreadRepository

/-- ThreadRepository.mapToSupabase: copies each field that is present,
translating camelCase to snake_case. -/
def mapToSupabase (p : ThreadPatch) : ThreadRowOut :=
  { id := p.id, user_id := p.userId, project_id := p.projectId,
    title := p.title, created_at := p.createdAt, updated_at := p.updatedAt }

/-- ThreadRepository.mapSingleFromSupabase: total translation of a remote row
into a Thread; updated_at falls back to created_at via the || operator. -/
def mapSingleFromSupabase (r : ThreadRowIn) : Thread :=
  { id := r.id, userId := r.user_id, projectId := r.project_id,
    title := r.title, createdAt := r.created_at,
    updatedAt := jsOrD r.updated_at r.created_at }

end ThreadRepository

/-! ## Generic SupabaseBaseRepository CRUD (supabase-base.repository.ts),
modelled at its Thread instantiation. The capable flag is the conjunction
isSupabaseConfigured AND supabase AND hasSupabaseSession evaluated at the
call, and each remote call outcome is a parameter. -/

/-- Result of the generic create: the entity returned to the caller, the new
local store, and the payload sent to the remote insert (none when the remote
path was not attempted). -/
structure CreateOut where
  result : Thread
  store : List Thread
  sent : Option ThreadRowOut
deriving DecidableEq, Repr

/-- Result of the generic update: the entity returned (none when not found)
and the new local store. -/
structure UpdateOut where
  result : Option Thread
  store : List Thread
deriving DecidableEq, Repr

namespace SupabaseBaseRepository

/-- LOCAL-ONLY create path: pushes a new item with generated id and
timestamps defaulted by the || operator. -/
def createLocalThread (genId now : String) (item : ThreadPatch) (store : List Thread) :
    Thread × List Thread :=
  let newItem : Thread :=
    { id := jsOrD item.id genId,
      userId := (item.userId).getD "",
      projectId := (item.projectId).getD "",
      title := (item.title).getD "",
      createdAt := jsOrD item.createdAt now,
      updatedAt := jsOrD item.updatedAt now }
  (newItem, store ++ [newItem])

/-- SupabaseBaseRepository.create at the Thread instance. When capable, it
builds the sparse payload with timestamps defaulted to now, drops the id key
when it is falsy, and attempts the remote insert; on success the canonical
row is mapped and appended to the local store, on failure it falls through
to the LOCAL-ONLY create. -/
def create (capable : Bool) (remoteInsert : Except String ThreadRowIn)
    (genId now : String) (item : ThreadPatch) (store : List Thread) : CreateOut :=
  if capable then
    let patch : ThreadPatch :=
      { item with createdAt := some (jsOrD item.createdAt now),
                  updatedAt := some (jsOrD item.updatedAt now) }
    let payload := ThreadRepository.mapToSupabase patch
    let payload := if jsFalsyStr payload.id then { payload with id := none } else payload
    match remoteInsert with
    | Except.ok row =>
      let mapped := ThreadRepository.mapSingleFromSupabase row
      { result := mapped, store := store ++ [mapped], sent := some payload }
    | Except.error _ =>
      let r := createLocalThread genId now item store
      { result := r.1, store := r.2, sent := some payload }
  else
    let r := createLocalThread genId now item store
    { result := r.1, store := r.2, sent := none }

/-- Spread-merge of a sparse patch over an existing Thread with updatedAt
stamped to now, as in the LOCAL-ONLY update path. -/
def applyPatch (t : Thread) (u : ThreadPatch) (now : String) : Thread :=
  { id := u.id.getD t.id, userId := u.userId.getD t.userId,
    projectId := u.projectId.getD t.projectId, title := u.title.getD t.title,
    createdAt := u.createdAt.getD t.createdAt, updatedAt := now }

/-- LOCAL-ONLY update path: finds the first item with the id, merges the
patch, stamps updatedAt, and writes the item back in place. -/
def updateLocalThread (now id : String) (u : ThreadPatch) (store : List Thread) : UpdateOut :=
  match store.findIdx? (fun t => t.id == id) with
  | none => { result := none, store := store }
  | some i =>
    match store[i]? with
    | none => { result := none, store := store }
    | some old =>
      let upd := applyPatch old u now
      { result := some upd, store := store.set i upd }

/-- SupabaseBaseRepository.update at the Thread instance: on remote success
the returned row is mirrored into the local store, replacing the first
matching item or appending when absent; on error or when not capable, the
LOCAL-ONLY update runs. -/
def update (capable : Bool) (remoteUpdate : Except String ThreadRowIn)
    (now id : String) (u : ThreadPatch) (store : List Thread) : UpdateOut :=
  if capable then
    match remoteUpdate with
    | Except.ok row =>
      let mapped := ThreadRepository.mapSingleFromSupabase row
      let store2 :=
        match store.findIdx? (fun t => t.id == id) with
        | some i => store.set i mapped
        | none => store ++ [mapped]
      { result := some mapped, store := store2 }
    | Except.error _ => updateLocalThread now id u store
  else updateLocalThread now id u store

/-- LOCAL-ONLY delete path: filters the id out and reports whether anything
was removed. -/
def deleteLocalThread (id : String) (store : List Thread) : Bool × List Thread :=
  let filtered := store.filter (fun t => t.id != id)
  if filtered.length == store.length then (false, store) else (true, filtered)

/-- SupabaseBaseRepository.delete at the Thread instance: on remote success
it unconditionally filters the local mirror and returns true; otherwise the
LOCAL-ONLY delete runs. -/
def delete (capable : Bool) (remoteDelete : Except String Unit)
    (id : String) (store : List Thread) : Bool × List Thread :=
  if capable then
    match remoteDelete with
    | Except.ok _ => (true, store.filter (fun t => t.id != id))
    | Except.error _ => deleteLocalThread id store
  else deleteLocalThread id store

/-- Result of findAll: the entities returned and the (possibly updated)
local store. -/
structure FindAllOut where
  result : List Thread
  store : List Thread
deriving DecidableEq, Repr

/-- SupabaseBaseRepository.findAll at the Thread instance: when capable and
the remote select succeeds, the mapped rows are returned directly; on error
or when not capable, the local collection filtered by owner is returned. -/
def findAll (capable : Bool) (remoteSelect : Except String (List ThreadRowIn))
    (userId : String) (store : List Thread) : FindAllOut :=
  if capable then
    match remoteSelect with
    | Except.ok rows => { result := rows.map ThreadRepository.mapSingleFromSupabase, store := store }
    | Except.error _ => { result := store.filter (fun t => t.userId == userId), store := store }
  else { result := store.filter (fun t => t.userId == userId), store := store }

end SupabaseBaseRepository

example :
    (SupabaseBaseRepository.delete true (Except.ok ()) "x" []).1 = true := by decide

example :
    (SupabaseBaseRepository.findAll true (Except.ok []) "u" []).store = [] := by decide

/-! ## Identifier generation (src/utils/id.ts) and UUID syntax -/

/-- Lowercase hexadecimal digit character for a nibble, as produced by the
JavaScript Number.toString(16) on a value below 16. -/
def hexDigit (n : Nat) : Char :=
  if n < 10 then Char.ofNat (48 + n) else Char.ofNat (87 + n)

/-- Two-character lowercase hexadecimal rendering of one byte, as produced by
b.toString(16).padStart(2, the zero character) for b below 256. -/
def byteHex (b : Nat) : List Char := [hexDigit (b / 16), hexDigit (b % 16)]

/-- Checks that a character is a lowercase hexadecimal digit. -/
def isHexLower (c : Char) : Bool :=
  (decide ('0' ≤ c) && decide (c ≤ '9')) || (decide ('a' ≤ c) && decide (c ≤ 'f'))

/-- Modelled from the spec: isValidUuid from src/utils/uuid.ts, whose source
file is not in the tree; the spec describes it as the syntactic check that an
id is a remote-compatible identifier in the UUID textual layout
xxxxxxxx-xxxx-xxxx-xxxx-xxxxxxxxxxxx (32 hex digits in 8-4-4-4-12 groups). -/
def isValidUuid (s : String) : Bool :=
  match s.data with
  | a1 :: a2 :: a3 :: a4 :: a5 :: a6 :: a7 :: a8 :: d1 ::
    b1 :: b2 :: b3 :: b4 :: d2 ::
    c1 :: c2 :: c3 :: c4 :: d3 ::
    e1 :: e2 :: e3 :: e4 :: d4 ::
    f1 :: f2 :: f3 :: f4 :: f5 :: f6 :: f7 :: f8 :: f9 :: f10 :: f11 :: f12 :: [] =>
    d1 == '-' && d2 == '-' && d3 == '-' && d4 == '-' &&
    ([a1, a2, a3, a4, a5, a6, a7, a8, b1, b2, b3, b4, c1, c2, c3, c4,
      e1, e2, e3, e4, f1, f2, f3, f4, f5, f6, f7, f8, f9, f10, f11, f12].all isHexLower)
  | _ => false

/-- UUID version-4 textual layout: the general UUID layout with the version
nibble (position 14) equal to 4 and the variant nibble (position 19) in the
set 8, 9, a, b. -/
def isUuidV4Layout (s : String) : Bool :=
  isValidUuid s && (s.data.getD 14 ' ' == '4') &&
    (let c := s.data.getD 19 ' '
     c == '8' || c == '9' || c == 'a' || c == 'b')

/-- Sets the version and variant bits on a 16-byte array, exactly as the
second tier of generateId does: byte 6 becomes (b6 AND 0x0f) OR 0x40 and
byte 8 becomes (b8 AND 0x3f) OR 0x80. -/
def setVersionVariant (b : Fin 16 → Nat) : Fin 16 → Nat := fun i =>
  if i.val = 6 then (b 6 &&& 15) ||| 64
  else if i.val = 8 then (b 8 &&& 63) ||| 128
  else b i

/-- Array.from on the 16-byte buffer. -/
def bytesList (b : Fin 16 → Nat) : List Nat :=
  [b 0, b 1, b 2, b 3, b 4, b 5, b 6, b 7, b 8, b 9, b 10, b 11, b 12, b 13, b 14, b 15]

/-- The 32-character hexadecimal string of a byte list: map toString(16)
padded to two digits, then join. -/
def bytesHex (bs : List Nat) : List Char := (bs.map byteHex).flatten

/-- Regrouping of the 32 hex characters into the dashed UUID layout: the
slices 0-8, 8-12, 12-16, 16-20 and 20-32 joined by dashes. -/
def uuidGroups (h : List Char) : List Char :=
  h.take 8 ++ '-' :: ((h.drop 8).take 4) ++ '-' :: ((h.drop 12).take 4)
    ++ '-' :: ((h.drop 16).take 4) ++ '-' :: ((h.drop 20).take 12)

/-- Second tier of generateId: sixteen random bytes from
crypto.getRandomValues assembled manually into the UUID-v4 layout. -/
def uuidFromBytes (b : Fin 16 → Nat) : String :=
  String.mk (uuidGroups (bytesHex (bytesList (setVersionVariant b))))

/-- First tier of generateId: the platform primitive crypto.randomUUID,
modelled by its standard algorithm (16 random bytes with the version and
variant bits forced, rendered in the dashed layout). -/
def cryptoRandomUUID (b : Fin 16 → Nat) : String := uuidFromBytes b

/-- The replacement template of the third tier of generateId. -/
def uuidTemplate : List Char :=
  ['x', 'x', 'x', 'x', 'x', 'x', 'x', 'x', '-',
   'x', 'x', 'x', 'x', '-',
   '4', 'x', 'x', 'x', '-',
   'y', 'x', 'x', 'x', '-',
   'x', 'x', 'x', 'x', 'x', 'x', 'x', 'x', 'x', 'x', 'x', 'x']

/-- The regex-replace of the third tier: each x or y in the template consumes
one value r from Math.random times 16 floored (always below 16); x becomes
r in hex, y becomes (r AND 0x3) OR 0x8 in hex; other characters are kept. -/
def replaceXY (rand : Nat → Nat) : List Char → Nat → List Char
  | [], _ => []
  | c :: cs, k =>
    if c = 'x' then hexDigit (rand k) :: replaceXY rand cs (k + 1)
    else if c = 'y' then hexDigit ((rand k &&& 3) ||| 8) :: replaceXY rand cs (k + 1)
    else c :: replaceXY rand cs k

/-- Third tier of generateId: the Math.random based template replacement. -/
def mathRandomUuid (rand : Nat → Nat) : String :=
  String.mk (replaceXY rand uuidTemplate 0)

/-- The runtime environment generateId probes: availability and success of
the two crypto primitives, the byte buffers they would produce, and the
Math.random sequence (already multiplied by 16 and floored). -/
structure CryptoPlatform where
  hasRandomUUID : Bool
  randomUUIDThrows : Bool
  uuidBytes : Fin 16 → Nat
  hasGetRandomValues : Bool
  getRandomValuesThrows : Bool
  randomBytes : Fin 16 → Nat
  mathRandom : Nat → Nat

/-- generateId from src/utils/id.ts: tries crypto.randomUUID, then
crypto.getRandomValues assembled into UUID-v4 layout, then the Math.random
template replacement; a throwing primitive is caught and the next tier
runs. -/
def generateId (p : CryptoPlatform) : String :=
  if p.hasRandomUUID && !p.randomUUIDThrows then cryptoRandomUUID p.uuidBytes
  else if p.hasGetRandomValues && !p.getRandomValuesThrows then uuidFromBytes p.randomBytes
  else mathRandomUuid p.mathRandom

example : uuidFromBytes (fun _ => 0) = "00000000-0000-4000-8000-000000000000" := by decide

example : isUuidV4Layout (uuidFromBytes (fun _ => 255)) = true := by decide

example : isUuidV4Layout (mathRandomUuid (fun _ => 15)) = true := by decide

example : isValidUuid "11111111-1111-4111-8111-111111111111" = true := by decide

/-! ## ThreadRepository.createThread (thread.repository.ts) -/

/-- ThreadRepository.createThread: when both ids are valid UUIDs and the
remote store is configured, the thread is inserted remotely with the id key
deleted from the payload; on success the mapped row is returned directly
(without touching the local store); on failure, and in every other case, the
generic create runs (which performs its own capability check, so it receives
its own capable flag and remote outcome). -/
def ThreadRepository.createThread (configured capable : Bool)
    (remoteInsert fallbackRemoteInsert : Except String ThreadRowIn)
    (genId now : String) (userId projectId title : String)
    (store : List Thread) : CreateOut :=
  let item : ThreadPatch :=
    { userId := some userId, projectId := some projectId, title := some title,
      createdAt := some now, updatedAt := some now }
  if isValidUuid userId && isValidUuid projectId && configured then
    let payload := { ThreadRepository.mapToSupabase item with id := none }
    match remoteInsert with
    | Except.ok row =>
      { result := ThreadRepository.mapSingleFromSupabase row, store := store,
        sent := some payload }
    | Except.error _ =>
      SupabaseBaseRepository.create capable fallbackRemoteInsert genId now item store
  else
    SupabaseBaseRepository.create capable fallbackRemoteInsert genId now item store

/-! ## Message entity and MessageRepository (message.repository.ts) -/

/-- Attachment record, from src/types/index.ts. -/
structure Attachment where
  id : String
  type : String
  urlOrData : String
  name : Option String := none
  path : Option String := none
  mime : Option String := none
  size : Option Nat := none
deriving DecidableEq, Repr

/-- Input-modality record attached to a message. -/
structure MessageMeta where
  source : String
deriving DecidableEq, Repr

/-- In-memory Message entity, from src/types/index.ts. -/
structure Message where
  id : String
  userId : String
  threadId : String
  role : String
  content : String
  createdAt : String
  tags : Option String := none
  attachments : Option (List Attachment) := none
  meta : Option MessageMeta := none
deriving DecidableEq, Repr

/-- Sparse patch of a Message for mapToSupabase. -/
structure MessagePatch where
  id : Option String := none
  userId : Option String := none
  threadId : Option String := none
  role : Option String := none
  content : Option String := none
  createdAt : Option String := none
  tags : Option String := none
  attachments : Option (List Attachment) := none
  meta : Option MessageMeta := none
deriving DecidableEq, Repr

/-- Sparse snake_case message row payload for the remote store; the user id
is never written (it is reachable through the owning thread). -/
structure MessageRowOut where
  id : Option String := none
  thread_id : Option String := none
  role : Option String := none
  content : Option String := none
  created_at : Option String := none
  tags : Option String := none
  attachments : Option (List Attachment) := none
  meta : Option MessageMeta := none
deriving DecidableEq, Repr

/-- Full message row as read back from the remote store; user_id may be
absent from the messages table. -/
structure MessageRowIn where
  id : String
  user_id : Option String := none
  thread_id : String
  role : String
  content : String
  created_at : String
  tags : Option String := none
  attachments : Option (List Attachment) := none
  meta : Option MessageMeta := none
deriving DecidableEq, Repr

namespace MessageRepository

/-- MessageRepository.mapToSupabase: copies each present field into
snake_case, omitting the user id. -/
def mapToSupabase (p : MessagePatch) : MessageRowOut :=
  { id := p.id, thread_id := p.threadId, role := p.role, content := p.content,
    created_at := p.createdAt, tags := p.tags, attachments := p.attachments,
    meta := p.meta }

/-- MessageRepository.mapSingleFromSupabase: total translation of a remote
message row; a missing user_id becomes the empty string. -/
def mapSingleFromSupabase (r : MessageRowIn) : Message :=
  { id := r.id, userId := jsOrD r.user_id "", threadId := r.thread_id,
    role := r.role, content := r.content, createdAt := r.created_at,
    tags := r.tags, attachments := r.attachments, meta := r.meta }

/-- LOCAL-ONLY create path of the generic base at the Message instance. -/
def createLocalMessage (genId now : String) (item : MessagePatch)
    (store : List Message) : Message × List Message :=
  let newItem : Message :=
    { id := jsOrD item.id genId, userId := (item.userId).getD "",
      threadId := (item.threadId).getD "", role := (item.role).getD "",
      content := (item.content).getD "", createdAt := jsOrD item.createdAt now,
      tags := item.tags, attachments := item.attachments, meta := item.meta }
  (newItem, store ++ [newItem])

/-- SupabaseBaseRepository.create at the Message instance (the method
createMessage falls back to): remote success appends the mapped row to the
local store; remote failure and the non-capable case run the LOCAL-ONLY
create. -/
def baseCreate (capable : Bool) (remoteInsert : Except String MessageRowIn)
    (genId now : String) (item : MessagePatch) (store : List Message) :
    Message × List Message :=
  if capable then
    match remoteInsert with
    | Except.ok row =>
      let mapped := mapSingleFromSupabase row
      (mapped, store ++ [mapped])
    | Except.error _ => createLocalMessage genId now item store
  else createLocalMessage genId now item store

/-- MessageRepository.createMessage: ensures createdAt exists (nullish
coalescing with now), prefers the remote insert when the thread id is a
truthy valid UUID and the remote store is configured; on remote success the
mapped row is returned directly (without touching the local store); on
failure or otherwise the generic create runs. -/
def createMessage (configured capable : Bool)
    (remoteInsert fallbackRemoteInsert : Except String MessageRowIn)
    (genId now : String) (m : MessagePatch) (store : List Message) :
    Message × List Message :=
  let msg : MessagePatch := { m with createdAt := some ((m.createdAt).getD now) }
  let threadId := (msg.threadId).getD ""
  if !(jsFalsyStr msg.threadId) && isValidUuid threadId && configured then
    match remoteInsert with
    | Except.ok row => (mapSingleFromSupabase row, store)
    | Except.error _ => baseCreate capable fallbackRemoteInsert genId now msg store
  else baseCreate capable fallbackRemoteInsert genId now msg store

end MessageRepository

/-! ## LessonRecord and its repository (lesson-record.repository.ts) -/

/-- In-memory LessonRecord entity (the fields the repository populates). -/
structure LessonRecord where
  id : String
  userId : String
  date : String
  duration : Int
  content : String
  memo : Option String := none
  createdAt : String
  updatedAt : Option String := none
deriving DecidableEq, Repr

/-- Payload of LessonRecordRepository.create and update. -/
structure LessonData where
  date : String
  duration : Int
  content : String
  memo : Option String := none
deriving DecidableEq, Repr

/-- Full lesson_records row as read back from the remote store. -/
structure LessonRowIn where
  id : String
  user_id : String
  date : String
  duration : Int
  content : String
  memo : Option String := none
  created_at : String
  updated_at : Option String := none
deriving DecidableEq, Repr

namespace LessonRecordRepository

/-- LessonRecordRepository.mapFromSupabase. -/
def mapFromSupabase (r : LessonRowIn) : LessonRecord :=
  { id := r.id, userId := r.user_id, date := r.date, duration := r.duration,
    content := r.content, memo := r.memo, createdAt := r.created_at,
    updatedAt := r.updated_at }

/-- LessonRecordRepository.createLocal: appends a new record with a generated
id and createdAt set to now. -/
def createLocal (genId now userId : String) (d : LessonData)
    (records : List LessonRecord) : LessonRecord × List LessonRecord :=
  let newRecord : LessonRecord :=
    { id := genId, userId := userId, date := d.date, duration := d.duration,
      content := d.content, memo := d.memo, createdAt := now }
  (newRecord, records ++ [newRecord])

/-- LessonRecordRepository.create: with a valid session the remote insert is
attempted; on success the mapped row is returned (no local write); on error
the method THROWS the error message to the caller; only without a session
does it run the local create. The Except.error value is the thrown
exception. -/
def create (session : Bool) (remoteInsert : Except String LessonRowIn)
    (genId now userId : String) (d : LessonData) (records : List LessonRecord) :
    Except String (LessonRecord × List LessonRecord) :=
  if session then
    match remoteInsert with
    | Except.ok row => Except.ok (mapFromSupabase row, records)
    | Except.error e => Except.error (jsOrD (some e) "保存に失敗しました")
  else Except.ok (createLocal genId now userId d records)

/-- LessonRecordRepository.updateLocal: merges the payload over the first
record with the id and stamps updatedAt. -/
def updateLocal (id now : String) (d : LessonData) (records : List LessonRecord) :
    Option LessonRecord × List LessonRecord :=
  match records.findIdx? (fun r => r.id == id) with
  | none => (none, records)
  | some i =>
    match records[i]? with
    | none => (none, records)
    | some old =>
      let upd : LessonRecord :=
        { old with date := d.date, duration := d.duration, content := d.content,
                   memo := d.memo, updatedAt := some now }
      (some upd, records.set i upd)

/-- LessonRecordRepository.update: same shape as create — remote errors are
thrown to the caller, the local update runs only without a session. -/
def update (session : Bool) (remoteUpdate : Except String LessonRowIn)
    (id now : String) (d : LessonData) (records : List LessonRecord) :
    Except String (Option LessonRecord × List LessonRecord) :=
  if session then
    match remoteUpdate with
    | Except.ok row => Except.ok (some (mapFromSupabase row), records)
    | Except.error e => Except.error (jsOrD (some e) "更新に失敗しました")
  else Except.ok (updateLocal id now d records)

/-- LessonRecordRepository.delete: remote success returns with the local
records untouched; a remote error is thrown; without a session the record is
filtered out of the local store. -/
def delete (session : Bool) (remoteDelete : Except String Unit)
    (id : String) (records : List LessonRecord) :
    Except String (List LessonRecord) :=
  if session then
    match remoteDelete with
    | Except.ok _ => Except.ok records
    | Except.error e => Except.error (jsOrD (some e) "削除に失敗しました")
  else Except.ok (records.filter (fun r => r.id != id))

end LessonRecordRepository

/-! ## Local JSON reads (base.repository.ts getAll,
supabase-base.repository.ts getFromLocalStorage, and the guarded getLocal
helpers). The stored value models localStorage.getItem composed with
JSON.parse: none is an absent key, some (Except.error u) is content on which
JSON.parse throws, some (Except.ok l) is content parsing to the list l. -/

namespace BaseRepository

/-- BaseRepository.getAll: data ? JSON.parse(data) : [] with no try/catch —
a parse exception propagates to the caller (the Except.error result). -/
def getAll {α : Type} (stored : Option (Except Unit (List α))) : Except Unit (List α) :=
  match stored with
  | none => Except.ok []
  | some r => r

end BaseRepository

namespace SupabaseBaseRepository

/-- SupabaseBaseRepository.getFromLocalStorage: identical body to
BaseRepository.getAll, also without a try/catch. -/
def getFromLocalStorage {α : Type} (stored : Option (Except Unit (List α))) :
    Except Unit (List α) :=
  match stored with
  | none => Except.ok []
  | some r => r

end SupabaseBaseRepository

namespace LessonRecordRepository

/-- LessonRecordRepository.getLocal: the same read wrapped in try/catch, so
an absent key and unparseable content both give the empty list. -/
def getLocal (stored : Option (Except Unit (List LessonRecord))) : List LessonRecord :=
  match stored with
  | none => []
  | some (Except.ok v) => v
  | some (Except.error _) => []

end LessonRecordRepository

/-! ## TestSet, TestScore and TestSetRepository (test-set.repository.ts) -/

/-- In-memory TestSet entity, from src/types/index.ts. -/
structure TestSet where
  id : String
  userId : String
  date : String
  name : String
  grade : Option String := none
  memo : Option String := none
  createdAt : String
  updatedAt : Option String := none
deriving DecidableEq, Repr

/-- In-memory TestScore entity (with the image lists the repository reads and
writes; the attachment payloads themselves are opaque strings here). -/
structure TestScore where
  id : String
  testSetId : String
  subject : String
  score : Int
  average : Option Int := none
  maxScore : Int
  rank : Option Int := none
  deviation : Option Int := none
  problemImages : List String := []
  answerImages : List String := []
  createdAt : String
deriving DecidableEq, Repr

/-- The set-plus-scores view the repository returns. -/
structure TestSetWithScores where
  set : TestSet
  scores : List TestScore
deriving DecidableEq, Repr

/-- Payload describing the TestSet fields of createTestSet and
updateTestSet. -/
structure TestSetData where
  date : String
  name : String
  grade : Option String := none
  memo : Option String := none
deriving DecidableEq, Repr

/-- One score input of createTestSet and updateTestSet. -/
structure ScoreInput where
  subject : String
  score : Int
  average : Option Int := none
  maxScore : Option Int := none
  problemImages : List String := []
  answerImages : List String := []
deriving DecidableEq, Repr

/-- Remote test_sets row. -/
structure TestSetRow where
  id : String
  user_id : String
  date : String
  name : String
  grade : Option String := none
  memo : Option String := none
  created_at : String
  updated_at : Option String := none
deriving DecidableEq, Repr

/-- Remote test_scores row; the image columns can be null, which the
repository replaces by the empty array. -/
structure TestScoreRow where
  id : String
  test_set_id : String
  subject : String
  score : Int
  average : Option Int := none
  max_score : Int
  rank : Option Int := none
  deviation : Option Int := none
  problem_images : Option (List String) := none
  answer_images : Option (List String) := none
  created_at : String
deriving DecidableEq, Repr

/-- The remote database state the TestSet transactions act on. -/
structure RemoteDB where
  sets : List TestSetRow
  scores : List TestScoreRow
deriving DecidableEq, Repr

namespace TestSetRepository

/-- The inline row-to-entity translation of a test_sets row. -/
def mapSetFromRow (r : TestSetRow) : TestSet :=
  { id := r.id, userId := r.user_id, date := r.date, name := r.name,
    grade := r.grade, memo := r.memo, createdAt := r.created_at,
    updatedAt := r.updated_at }

/-- The inline row-to-entity translation of a test_scores row, with null
image columns becoming empty lists. -/
def mapScoreFromRow (s : TestScoreRow) : TestScore :=
  { id := s.id, testSetId := s.test_set_id, subject := s.subject,
    score := s.score, average := s.average, maxScore := s.max_score,
    rank := s.rank, deviation := s.deviation,
    problemImages := (s.problem_images).getD [],
    answerImages := (s.answer_images).getD [],
    createdAt := s.created_at }

/-- The rows the remote insert of the score list produces: one row per input
in order, with server-generated ids (serverId applied to the index), the set
id as foreign key, max_score defaulted to 100 by nullish coalescing, and
created_at stamped by the server. -/
def insertScoreRows (serverId : Nat → String) (setId serverNow : String)
    (scores : List ScoreInput) : List TestScoreRow :=
  scores.enum.map (fun p =>
    { id := serverId p.1, test_set_id := setId, subject := p.2.subject,
      score := p.2.score, average := p.2.average,
      max_score := (p.2.maxScore).getD 100,
      problem_images := some p.2.problemImages,
      answer_images := some p.2.answerImages,
      created_at := serverNow })

/-- TestSetRepository.updateTestSetLocal: updates the first set with the id
in place (the source reads sets at the found index, which is the first
matching element, rendered here with find?), then fully overwrites the score
collection for that set — all stored scores whose testSetId matches are
dropped and the new score list (with locally generated ids) is appended.
Returns none and leaves both collections untouched when the set does not
exist locally. -/
def updateTestSetLocal (genId : Nat → String) (id : String) (d : TestSetData)
    (scores : List ScoreInput) (now : String)
    (localSets : List TestSet) (localScores : List TestScore) :
    Option TestSetWithScores × List TestSet × List TestScore :=
  match localSets.findIdx? (fun s => s.id == id) with
  | none => (none, localSets, localScores)
  | some i =>
    match localSets.find? (fun s => s.id == id) with
    | none => (none, localSets, localScores)
    | some old =>
      let upd : TestSet :=
        { old with date := d.date, name := d.name, grade := d.grade,
                   memo := d.memo, updatedAt := some now }
      let sets2 := localSets.set i upd
      let newScores : List TestScore := scores.enum.map (fun p =>
        { id := genId p.1, testSetId := id, subject := p.2.subject,
          score := p.2.score, average := p.2.average,
          maxScore := (p.2.maxScore).getD 100,
          problemImages := p.2.problemImages,
          answerImages := p.2.answerImages, createdAt := now })
      let allScores := localScores.filter (fun s => s.testSetId != id) ++ newScores
      (some ⟨upd, newScores⟩, sets2, allScores)

/-- Result of updateTestSet: the remote database, both local collections and
the value returned to the caller. -/
structure UpdateTSOut where
  db : RemoteDB
  localSets : List TestSet
  localScores : List TestScore
  result : Option TestSetWithScores
deriving DecidableEq, Repr

/-- TestSetRepository.updateTestSet. The remote path updates the set row,
deletes every existing score row of the set, and inserts the new score rows;
the three exogenous failure flags model a remote error at the corresponding
step (and an id matching no remote set row fails the first step, since
single() errors there). Any remote failure falls back to
updateTestSetLocal, leaving the remote database in whatever state the
completed steps produced. Without configuration the local path runs
directly. -/
def updateTestSet (cfg : Bool) (failSet failDel failIns : Bool)
    (serverId : Nat → String) (serverNow : String) (genId : Nat → String)
    (id : String) (d : TestSetData) (scores : List ScoreInput) (now : String)
    (db : RemoteDB) (localSets : List TestSet) (localScores : List TestScore) :
    UpdateTSOut :=
  if cfg then
    match (if failSet then none else db.sets.find? (fun s => s.id == id)) with
    | none =>
      let r := updateTestSetLocal genId id d scores now localSets localScores
      { db := db, localSets := r.2.1, localScores := r.2.2, result := r.1 }
    | some old =>
      let updRow : TestSetRow :=
        { old with date := d.date, name := d.name, grade := d.grade,
                   memo := d.memo, updated_at := some now }
      let db1 : RemoteDB :=
        { db with sets := db.sets.map (fun s => if s.id == id then updRow else s) }
      if failDel then
        let r := updateTestSetLocal genId id d scores now localSets localScores
        { db := db1, localSets := r.2.1, localScores := r.2.2, result := r.1 }
      else
        let db2 : RemoteDB :=
          { db1 with scores := db1.scores.filter (fun s => s.test_set_id != id) }
        if failIns then
          let r := updateTestSetLocal genId id d scores now localSets localScores
          { db := db2, localSets := r.2.1, localScores := r.2.2, result := r.1 }
        else
          let inserted := insertScoreRows serverId id serverNow scores
          let db3 : RemoteDB := { db2 with scores := db2.scores ++ inserted }
          { db := db3, localSets := localSets, localScores := localScores,
            result := some ⟨mapSetFromRow updRow, inserted.map mapScoreFromRow⟩ }
  else
    let r := updateTestSetLocal genId id d scores now localSets localScores
    { db := db, localSets := r.2.1, localScores := r.2.2, result := r.1 }

/-- TestSetRepository.findByUserId: the local result is the locally stored
sets of the user sorted by date descending, each joined with its locally
stored scores. When configured, a remote query error returns the local
result, a successful remote query with zero rows ALSO returns the local
result, and only a nonempty remote row set is mapped and returned (each set
joined with its remotely fetched scores). -/
def findByUserId (cfg : Bool) (remoteSets : Except String (List TestSetRow))
    (remoteScoresFor : String → List TestScoreRow) (userId : String)
    (localSets : List TestSet) (localScores : List TestScore) :
    List TestSetWithScores :=
  let localResult :=
    ((localSets.filter (fun s => s.userId == userId)).mergeSort
        (fun a b => decide (b.date ≤ a.date))).map
      (fun set => ⟨set, localScores.filter (fun s => s.testSetId == set.id)⟩)
  if cfg then
    match remoteSets with
    | Except.error _ => localResult
    | Except.ok sets =>
      if sets.isEmpty then localResult
      else sets.map (fun set =>
        ⟨mapSetFromRow set, (remoteScoresFor set.id).map mapScoreFromRow⟩)
  else localResult

/-- TestSetRepository.getLocalSets: a guarded local read (try/catch), absent
or unparseable content gives the empty list. -/
def getLocalSets (stored : Option (Except Unit (List TestSet))) : List TestSet :=
  match stored with
  | none => []
  | some (Except.ok v) => v
  | some (Except.error _) => []

/-- TestSetRepository.getLocalScores: same guarded shape as getLocalSets. -/
def getLocalScores (stored : Option (Except Unit (List TestScore))) : List TestScore :=
  match stored with
  | none => []
  | some (Except.ok v) => v
  | some (Except.error _) => []

end TestSetRepository

/-! ## Project, ProjectRepository and ProjectService (project.repository.ts
and the project.service.ts version with duplicate pruning) -/

/-- In-memory Project entity, from src/types/index.ts. -/
structure Project where
  id : String
  userId : String
  name : String
  createdAt : String
deriving DecidableEq, Repr

/-- Row of the projects table, the shape consumed by
ProjectRepository.mapSingleFromSupabase. -/
structure ProjectRow where
  id : String
  user_id : String
  name : String
  created_at : String
deriving DecidableEq, Repr

namespace ProjectRepository

/-- ProjectRepository.mapSingleFromSupabase: snake_case row to camelCase
entity, every column carried over. -/
def mapSingleFromSupabase (r : ProjectRow) : Project :=
  { id := r.id, userId := r.user_id, name := r.name, createdAt := r.created_at }

/-- ProjectRepository.findByUserId, which delegates to
SupabaseBaseRepository.findAll: when the remote is configured with a session
(cfg) and the select succeeds (qOk), the query returns the rows matching
user_id ordered by created_at ascending, which are mapped; a failed select
and the unconfigured path both return the local store filtered by owner. -/
def findByUserId (cfg qOk : Bool) (db : List ProjectRow) (store : List Project)
    (userId : String) : List Project :=
  if cfg then
    if qOk then
      ((db.filter (fun r => r.user_id == userId)).mergeSort
          (fun a b => decide (a.created_at ≤ b.created_at))).map mapSingleFromSupabase
    else store.filter (fun p => p.userId == userId)
  else store.filter (fun p => p.userId == userId)

/-- Effect of one SupabaseBaseRepository.delete of the duplicate-pruning
Promise.all on the two stores: when the remote is reachable and the remote
delete succeeds (delOk at the id) the row leaves the remote table, and on
every branch — remote success, remote error fallback, unconfigured — the
local mirror ends equal to its filter free of the id (the fallback branch
saves only when the filter removed something, and an equal-length filter is
the store itself). -/
def deleteStep (cfg : Bool) (delOk : String → Bool)
    (acc : List ProjectRow × List Project) (id : String) :
    List ProjectRow × List Project :=
  ((if cfg && delOk id then acc.1.filter (fun r => r.id != id) else acc.1),
   acc.2.filter (fun q => q.id != id))

/-- ProjectRepository.createProject, which is SupabaseBaseRepository.create
with no client id: on the remote path the insert payload carries user_id,
name and the timestamps, the id key is stripped so the store generates the
key (rid) and echoes the inserted row, which is mapped, appended to the
local mirror and returned; on the fallback path the entity is built with the
locally generated id (rid) and appended. The result is the returned project,
the remote table and the local store after. -/
def createProject (cfg rOk : Bool) (rid now : String) (db : List ProjectRow)
    (store : List Project) (userId nm : String) :
    Project × List ProjectRow × List Project :=
  if cfg && rOk then
    let row : ProjectRow := { id := rid, user_id := userId, name := nm, created_at := now }
    let p := mapSingleFromSupabase row
    (p, db ++ [row], store ++ [p])
  else
    let p : Project := { id := rid, userId := userId, name := nm, createdAt := now }
    (p, db, store ++ [p])

end ProjectRepository

namespace ProjectService

/-- One step of the duplicate-detection fold of normalizeProjects: the
accumulator is the JavaScript Map from name to the kept project plus the
duplicates list; an unseen name is inserted, an already seen name keeps
whichever project has the earlier createdAt (ties keep the incumbent,
localeCompare at most 0) and pushes the loser onto duplicates. -/
def normStep (acc : List (String × Project) × List Project) (project : Project) :
    List (String × Project) × List Project :=
  match jsMapGet acc.1 project.name with
  | none => (jsMapSet acc.1 project.name project, acc.2)
  | some existing =>
    if existing.createdAt ≤ project.createdAt then (acc.1, acc.2 ++ [project])
    else (jsMapSet acc.1 project.name project, acc.2 ++ [existing])

/-- ProjectService.normalizeProjects: folds the listed projects through the
Map, returning the kept values in Map iteration order and the duplicates. -/
def normalizeProjects (projects : List Project) : List Project × List Project :=
  let acc := projects.foldl normStep ([], [])
  (acc.1.map (fun e => e.2), acc.2)

/-- ProjectService.getProjectsByUserId over both repository paths: the
listing comes from findByUserId, normalizeProjects splits it into the kept
projects and the duplicates, every duplicate is deleted through the
repository (the source guards the Promise.all on a nonempty duplicates
list, a no-op for the empty fold), and the unique list is returned. The
result is the returned list, the remote table and the local store after
the deletions. -/
def getProjectsByUserId (cfg qOk : Bool) (delOk : String → Bool)
    (db : List ProjectRow) (store : List Project) (userId : String) :
    List Project × List ProjectRow × List Project :=
  let projects := ProjectRepository.findByUserId cfg qOk db store userId
  let n := normalizeProjects projects
  let after := n.2.foldl (fun acc p => ProjectRepository.deleteStep cfg delOk acc p.id)
    (db, store)
  (n.1, after.1, after.2)

/-- The five default subjects of initializeDefaultProjects. -/
def defaultProjects : List String := ["国語", "数学", "英語", "理科", "社会"]

/-- One iteration of the default-creation loop of initializeDefaultProjects:
a default name already among the normalized names (the list is computed
before the loop and not refreshed inside it) is skipped; a missing one is
created through the repository — crOk is each create's remote outcome and
ids the key the reached store generates for it — and the new project is
pushed onto the result list. -/
def initStep (cfg : Bool) (crOk : String → Bool) (ids : String → String)
    (now userId : String) (existingNames : List String)
    (acc : List Project × List ProjectRow × List Project) (nm : String) :
    List Project × List ProjectRow × List Project :=
  if existingNames.contains nm then acc
  else
    let c := ProjectRepository.createProject cfg (crOk nm) (ids nm) now acc.2.1 acc.2.2
      userId nm
    (acc.1 ++ [c.1], c.2.1, c.2.2)

/-- ProjectService.initializeDefaultProjects: lists the user's projects
through findByUserId, normalizes them, deletes every duplicate through the
repository, then walks the five default subjects creating each one whose
name is missing from the normalized names, and returns the normalized
projects followed by the created ones. The result is the returned list, the
remote table and the local store after. -/
def initializeDefaultProjects (cfg qOk : Bool) (delOk : String → Bool)
    (crOk : String → Bool) (ids : String → String) (now : String)
    (db : List ProjectRow) (store : List Project) (userId : String) :
    List Project × List ProjectRow × List Project :=
  let projects := ProjectRepository.findByUserId cfg qOk db store userId
  let n := normalizeProjects projects
  let after := n.2.foldl (fun acc p => ProjectRepository.deleteStep cfg delOk acc p.id)
    (db, store)
  let existingNames := n.1.map (fun p => p.name)
  defaultProjects.foldl (initStep cfg crOk ids now userId existingNames)
    (n.1, after.1, after.2)

end ProjectService

/-! ## Signed-URL cache (storage.service.ts createSignedUrl) -/

/-- One entry of the module-level signed-URL cache. -/
structure CacheEntry where
  url : String
  expiresAt : Nat
deriving DecidableEq, Repr

/-- Result of createSignedUrl: the returned or thrown value, the cache after
the call, and whether a remote signed-URL request was issued. -/
structure SignedUrlOut where
  result : Except String String
  cache : List (String × CacheEntry)
  requested : Bool
deriving Repr

/-- storage.service createSignedUrl: throws when the remote store is not
configured; returns the cached URL without a remote request when the cache
holds an entry for the path whose expiry is more than five minutes after
now; otherwise requests a fresh signed URL (the remote outcome is the
parameter) and, on success, stores it with expiry now plus expiresInSec
seconds (times are in milliseconds). -/
def createSignedUrl (configured : Bool) (remote : Except String String)
    (cache : List (String × CacheEntry)) (now : Nat) (path : String)
    (expiresInSec : Nat) : SignedUrlOut :=
  if !configured then
    { result := Except.error "Supabase設定が未完了です", cache := cache, requested := false }
  else
    let fresh : SignedUrlOut :=
      match remote with
      | Except.error _ =>
        { result := Except.error "画像URLの取得に失敗しました", cache := cache, requested := true }
      | Except.ok url =>
        { result := Except.ok url,
          cache := jsMapSet cache path ⟨url, now + expiresInSec * 1000⟩,
          requested := true }
    match jsMapGet cache path with
    | some c =>
      if now + 5 * 60 * 1000 < c.expiresAt then
        { result := Except.ok c.url, cache := cache, requested := false }
      else fresh
    | none => fresh

/-! ## Helper lemmas -/

theorem filter_length_eq_iff {α : Type} (p : α → Bool) (l : List α) :
    (l.filter p).length = l.length ↔ ∀ a ∈ l, p a = true := by
  constructor
  · intro h
    have hs := List.filter_sublist (l := l) (p := p)
    have := hs.eq_of_length h
    intro a ha
    exact List.of_mem_filter (this ▸ ha)
  · intro h
    rw [List.filter_eq_self.mpr h]

theorem mem_set_of_findIdx {α : Type} (l : List α) (p : α → Bool) (i : Nat) (a : α)
    (h : l.findIdx? p = some i) : a ∈ l.set i a := by
  induction l generalizing i with
  | nil => simp [List.findIdx?] at h
  | cons x xs ih =>
    rw [List.findIdx?_cons] at h
    by_cases hp : p x
    · simp [hp] at h
      subst h
      simp [List.set]
    · simp [hp] at h
      obtain ⟨j, hj, rfl⟩ := h
      simpa [List.set] using Or.inr (ih j hj)

theorem find?_map_replace {β : Type} (m : List (String × β)) (k : String) (v : β)
    (h : m.any (fun e => e.1 == k) = true) :
    (m.map (fun e => if e.1 == k then (k, v) else e)).find? (fun e => e.1 == k)
      = some (k, v) := by
  induction m with
  | nil => simp at h
  | cons e es ih =>
    by_cases he : (e.1 == k) = true
    · rw [List.map_cons, if_pos he]
      exact List.find?_cons_of_pos _ (by simp)
    · have he2 : (e.1 == k) = false := by simpa using he
      simp only [List.any_cons, he2, Bool.false_or] at h
      rw [List.map_cons, if_neg he,
        List.find?_cons_of_neg (p := fun x => x.1 == k) (a := e) _ he]
      exact ih h

theorem find?_append_left_none {β : Type} (l₁ l₂ : List (String × β))
    (p : String × β → Bool) (h : l₁.find? p = none) :
    (l₁ ++ l₂).find? p = l₂.find? p := by
  induction l₁ with
  | nil => rfl
  | cons e es ih =>
    by_cases hp : p e = true
    · rw [List.find?_cons_of_pos _ hp] at h
      exact Option.noConfusion h
    · rw [List.find?_cons_of_neg _ hp] at h
      rw [List.cons_append, List.find?_cons_of_neg _ hp]
      exact ih h

theorem jsMapGet_set_self {β : Type} (m : List (String × β)) (k : String) (v : β) :
    jsMapGet (jsMapSet m k v) k = some v := by
  by_cases h : m.any (fun e => e.1 == k) = true
  · rw [jsMapSet, if_pos h, jsMapGet, find?_map_replace m k v h]
    rfl
  · have hfind : m.find? (fun e => e.1 == k) = none := by
      rw [List.find?_eq_none]
      intro x hx hpx
      exact h (List.any_eq_true.mpr ⟨x, hx, hpx⟩)
    rw [jsMapSet, if_neg h, jsMapGet, find?_append_left_none _ _ _ hfind]
    simp [List.find?]

/-! ## Claim theorems -/

/-- C3 counterexample: local content on which JSON.parse throws makes
BaseRepository.getAll propagate the exception instead of returning the empty
list (the stored value some (error) models the concrete stored string
"not json", which is not parseable JSON). -/
theorem claim3_counterexample :
    BaseRepository.getAll (some (Except.error ()) : Option (Except Unit (List Thread)))
        = Except.error () ∧
    BaseRepository.getAll (some (Except.error ()) : Option (Except Unit (List Thread)))
        ≠ Except.ok [] := by
  refine ⟨rfl, ?_⟩
  simp [BaseRepository.getAll]

/-- C3 amended: every local read returns the empty list when the key is
absent, and the guarded readers (LessonRecordRepository.getLocal,
TestSetRepository.getLocalSets and getLocalScores) also absorb unparseable
content into the empty list; but BaseRepository.getAll and
SupabaseBaseRepository.getFromLocalStorage propagate the parse exception on
unparseable content. -/
theorem claim3_amended {α : Type} (e : Unit) (parsed : List α) :
    BaseRepository.getAll (none : Option (Except Unit (List α))) = Except.ok [] ∧
    SupabaseBaseRepository.getFromLocalStorage (none : Option (Except Unit (List α)))
      = Except.ok [] ∧
    SupabaseBaseRepository.getFromLocalStorage (some (Except.ok parsed)) = Except.ok parsed ∧
    LessonRecordRepository.getLocal none = [] ∧
    LessonRecordRepository.getLocal (some (Except.error e)) = [] ∧
    TestSetRepository.getLocalSets (some (Except.error e)) = [] ∧
    TestSetRepository.getLocalScores (some (Except.error e)) = [] ∧
    BaseRepository.getAll (some (Except.error e) : Option (Except Unit (List α)))
      = Except.error e ∧
    SupabaseBaseRepository.getFromLocalStorage
        (some (Except.error e) : Option (Except Unit (List α))) = Except.error e :=
  ⟨rfl, rfl, rfl, rfl, rfl, rfl, rfl, rfl, rfl⟩

/-- C4 counterexample: a remote-capable delete whose remote call succeeds
returns true even though the id exists in neither store (the local store is
empty and the remote delete matched zero rows, which the remote client does
not report as an error). -/
theorem claim4_counterexample :
    (SupabaseBaseRepository.delete true (Except.ok ()) "ghost-id" ([] : List Thread)).1
      = true := by
  rfl

/-- C4 amended: a remote-capable delete whose remote call succeeds always
returns true (the remote client does not report whether a row matched) and
filters the local mirror; on remote error or without capability the local
delete runs, which returns true exactly when an entity with the id exists in
the local store and always leaves the store equal to the filtered list. -/
theorem claim4_amended (rd : Except String Unit) (e id : String) (store : List Thread) :
    SupabaseBaseRepository.delete true (Except.ok ()) id store
      = (true, store.filter (fun t => t.id != id)) ∧
    SupabaseBaseRepository.delete true (Except.error e) id store
      = SupabaseBaseRepository.deleteLocalThread id store ∧
    SupabaseBaseRepository.delete false rd id store
      = SupabaseBaseRepository.deleteLocalThread id store ∧
    ((SupabaseBaseRepository.deleteLocalThread id store).1 = true ↔ ∃ t ∈ store, t.id = id) ∧
    (SupabaseBaseRepository.deleteLocalThread id store).2
      = store.filter (fun t => t.id != id) := by
  refine ⟨rfl, rfl, rfl, ?_, ?_⟩
  · rw [SupabaseBaseRepository.deleteLocalThread]
    split
    · rename_i hlen
      have hlen2 : (store.filter (fun t => t.id != id)).length = store.length := by
        simpa using hlen
      simp only [Bool.false_eq_true, false_iff, not_exists, not_and]
      intro t ht hid
      have := (filter_length_eq_iff (fun t => t.id != id) store).mp hlen2 t ht
      simp [hid] at this
    · rename_i hlen
      simp only [true_iff]
      by_contra hex
      push_neg at hex
      exact hlen (by
        simp only [beq_iff_eq]
        exact (filter_length_eq_iff _ store).mpr (by
          intro a ha
          simpa using hex a ha))
  · rw [SupabaseBaseRepository.deleteLocalThread]
    split
    · rename_i hlen
      have hlen2 : (store.filter (fun t => t.id != id)).length = store.length := by
        simpa using hlen
      exact ((List.filter_sublist (l := store)).eq_of_length hlen2).symm
    · rfl

/-- C5 counterexample: a creation input carrying the non-empty client id
legacy-id-7, run on the remote-capable generic create, sends a payload that
still contains that id — the id is not removed, so the remote store does not
generate the primary key. -/
theorem claim5_counterexample :
    (SupabaseBaseRepository.create true
        (Except.ok { id := "srv-1", user_id := "u1", project_id := "p1", title := "Chat",
                     created_at := "2024-01-01" })
        "gen-id" "2024-01-02"
        { id := some "legacy-id-7", userId := some "u1", projectId := some "p1",
          title := some "Chat" } []).sent
      = some { id := some "legacy-id-7", user_id := some "u1", project_id := some "p1",
               title := some "Chat", created_at := some "2024-01-02",
               updated_at := some "2024-01-02" } := by
  rfl

/-- C5 amended: the remote-capable generic create removes the id key from the
insert payload only when the client-supplied id is falsy (absent or the
empty string); a non-empty client-supplied id is sent to the remote insert
unchanged. Only ThreadRepository.createThread deletes the id
unconditionally, so that the remote store generates the primary key. -/
theorem claim5_amended (ri rthread rfb : Except String ThreadRowIn) (cfg cap : Bool)
    (genId now uid pid ttl : String) (item : ThreadPatch) (store : List Thread) :
    ((SupabaseBaseRepository.create true ri genId now item store).sent.map
        (fun p => p.id))
      = some (if jsFalsyStr item.id then none else item.id) ∧
    (((ThreadRepository.createThread cfg cap rthread rfb genId now uid pid ttl store).sent.map
        (fun p => p.id)).getD none)
      = none := by
  constructor
  · rw [SupabaseBaseRepository.create]
    simp only [if_pos]
    cases ri <;> simp [ThreadRepository.mapToSupabase] <;> split <;> simp_all
  · rw [ThreadRepository.createThread]
    split
    · cases rthread with
      | ok row => rfl
      | error e =>
        rw [SupabaseBaseRepository.create]
        cases cap <;> simp [ThreadRepository.mapToSupabase, jsFalsyStr] <;>
          cases rfb <;> simp [SupabaseBaseRepository.createLocalThread]
    · rw [SupabaseBaseRepository.create]
      cases cap <;> simp [ThreadRepository.mapToSupabase, jsFalsyStr] <;>
        cases rfb <;> simp [SupabaseBaseRepository.createLocalThread]

/-- C1 counterexample: a lesson-record create whose remote insert fails while
a valid session exists propagates the exception to the caller instead of
falling back to a local write. -/
theorem claim1_counterexample :
    LessonRecordRepository.create true (Except.error "insert failed") "gen-id"
        "2024-01-01" "u1" { date := "2024-01-05", duration := 90, content := "algebra" } []
      = Except.error "insert failed" := by
  rfl

/-- C1 amended: the generic SupabaseBaseRepository write operations fall back
to an equivalent local write when the attempted remote write fails — create
returns an entity with the generated id and createdAt populated and appends
it to the local store, update and delete run exactly their local paths — but
the LessonRecordRepository write operations (create, update, delete)
propagate the remote failure as an exception to the caller; they write
locally only when no valid session exists. -/
theorem claim1_amended (e : String) (rl : Except String LessonRowIn)
    (genId now id uid : String) (item : ThreadPatch)
    (u : ThreadPatch) (store : List Thread) (d : LessonData)
    (records : List LessonRecord) :
    (SupabaseBaseRepository.create true (Except.error e) genId now item store).result.id
      = jsOrD item.id genId ∧
    (SupabaseBaseRepository.create true (Except.error e) genId now item store).result.createdAt
      = jsOrD item.createdAt now ∧
    (SupabaseBaseRepository.create true (Except.error e) genId now item store).store
      = store ++ [(SupabaseBaseRepository.create true (Except.error e) genId now item store).result] ∧
    SupabaseBaseRepository.update true (Except.error e) now id u store
      = SupabaseBaseRepository.updateLocalThread now id u store ∧
    SupabaseBaseRepository.delete true (Except.error e) id store
      = SupabaseBaseRepository.deleteLocalThread id store ∧
    LessonRecordRepository.create true (Except.error e) genId now uid d records
      = Except.error (jsOrD (some e) "保存に失敗しました") ∧
    LessonRecordRepository.update true (Except.error e) id now d records
      = Except.error (jsOrD (some e) "更新に失敗しました") ∧
    LessonRecordRepository.delete true (Except.error e) id records
      = Except.error (jsOrD (some e) "削除に失敗しました") ∧
    LessonRecordRepository.create false rl genId now uid d records
      = Except.ok (LessonRecordRepository.createLocal genId now uid d records) := by
  refine ⟨rfl, rfl, rfl, rfl, rfl, rfl, rfl, rfl, rfl⟩

/-- C10 confirmed: with the remote store configured, a successful test-set
query returning zero rows produces exactly the same result as the
unconfigured (local-only) call, and so does a remote query error — an empty
remote success is treated the same as an unavailable remote, returning the
locally stored sets of the user joined with their locally stored scores. -/
theorem claim10_confirmed (remoteScoresFor : String → List TestScoreRow)
    (e userId : String) (localSets : List TestSet) (localScores : List TestScore)
    (rs : Except String (List TestSetRow)) :
    TestSetRepository.findByUserId true (Except.ok []) remoteScoresFor userId
        localSets localScores
      = TestSetRepository.findByUserId false rs remoteScoresFor userId
          localSets localScores ∧
    TestSetRepository.findByUserId true (Except.error e) remoteScoresFor userId
        localSets localScores
      = TestSetRepository.findByUserId false rs remoteScoresFor userId
          localSets localScores := by
  constructor <;> rfl

/-- C2 counterexample: a remote-capable findAll whose remote query returns a
row succeeds without writing anything to the local store — the successful
remote read is not mirrored into local storage, so a later local-path read
does not observe it. -/
theorem claim2_counterexample :
    (SupabaseBaseRepository.findAll true
        (Except.ok [{ id := "t1", user_id := "u1", project_id := "p1", title := "hello",
                      created_at := "2024-01-01" }]) "u1" []).store = [] ∧
    (SupabaseBaseRepository.findAll true
        (Except.ok [{ id := "t1", user_id := "u1", project_id := "p1", title := "hello",
                      created_at := "2024-01-01" }]) "u1" []).result
      = [{ id := "t1", userId := "u1", projectId := "p1", title := "hello",
           createdAt := "2024-01-01", updatedAt := "2024-01-01" }] := by
  exact ⟨rfl, rfl⟩

/-- C2 amended: the generic write operations mirror synchronously into the
local store before returning — create appends the mapped canonical row,
update writes it back in place (or appends it) so the returned row is in the
store, delete filters the local mirror — but a successful remote read
(findAll) does not mirror its result into local storage, and the specialized
ThreadRepository.createThread and MessageRepository.createMessage
remote-success paths also return without touching the local store. -/
theorem claim2_amended (row : ThreadRowIn) (mrow : MessageRowIn)
    (rfb : Except String ThreadRowIn) (mfb : Except String MessageRowIn)
    (cap : Bool) (genId now id uid pid ttl : String) (u item : ThreadPatch)
    (m : MessagePatch) (store : List Thread) (mstore : List Message)
    (rows : List ThreadRowIn)
    (h1 : isValidUuid uid = true) (h2 : isValidUuid pid = true)
    (h3 : jsFalsyStr m.threadId = false)
    (h4 : isValidUuid ((m.threadId).getD "") = true) :
    (SupabaseBaseRepository.create true (Except.ok row) genId now item store).store
      = store ++ [ThreadRepository.mapSingleFromSupabase row] ∧
    (SupabaseBaseRepository.create true (Except.ok row) genId now item store).result
      = ThreadRepository.mapSingleFromSupabase row ∧
    (SupabaseBaseRepository.update true (Except.ok row) now id u store).result
      = some (ThreadRepository.mapSingleFromSupabase row) ∧
    ThreadRepository.mapSingleFromSupabase row
      ∈ (SupabaseBaseRepository.update true (Except.ok row) now id u store).store ∧
    (SupabaseBaseRepository.delete true (Except.ok ()) id store).2
      = store.filter (fun t => t.id != id) ∧
    (SupabaseBaseRepository.findAll true (Except.ok rows) uid store).store = store ∧
    (ThreadRepository.createThread true cap (Except.ok row) rfb genId now uid pid ttl
        store).store = store ∧
    (MessageRepository.createMessage true cap (Except.ok mrow) mfb genId now m mstore).2
      = mstore := by
  refine ⟨rfl, rfl, rfl, ?_, rfl, rfl, ?_, ?_⟩
  · have hstore : (SupabaseBaseRepository.update true (Except.ok row) now id u store).store
        = (match store.findIdx? (fun t => t.id == id) with
           | some i => store.set i (ThreadRepository.mapSingleFromSupabase row)
           | none => store ++ [ThreadRepository.mapSingleFromSupabase row]) := rfl
    rw [hstore]
    cases hidx : store.findIdx? (fun t => t.id == id) with
    | none => simp
    | some i => exact mem_set_of_findIdx store _ i _ hidx
  · rw [ThreadRepository.createThread]
    rw [if_pos (by simp [h1, h2])]
  · rw [MessageRepository.createMessage]
    simp only [h3, h4, Bool.not_false, Bool.and_self, Bool.true_and, Bool.and_true, if_pos]

/-- C2 witness: the amended claim applied at a concrete remote-created thread
with valid UUID identifiers and a concrete message under a valid UUID
thread. -/
theorem claim2_witness :
    (ThreadRepository.createThread true false
        (Except.ok { id := "33333333-3333-4333-8333-333333333333",
                     user_id := "11111111-1111-4111-8111-111111111111",
                     project_id := "22222222-2222-4222-8222-222222222222",
                     title := "T", created_at := "2024-01-01" })
        (Except.error "down") "gid" "2024-01-02"
        "11111111-1111-4111-8111-111111111111"
        "22222222-2222-4222-8222-222222222222" "T" []).store = [] ∧
    (MessageRepository.createMessage true false
        (Except.ok { id := "m1", thread_id := "33333333-3333-4333-8333-333333333333",
                     role := "user", content := "hi", created_at := "2024-01-02" })
        (Except.error "down") "gid" "2024-01-02"
        { threadId := some "33333333-3333-4333-8333-333333333333",
          role := some "user", content := some "hi" } []).2 = [] := by
  have h := claim2_amended
    { id := "33333333-3333-4333-8333-333333333333",
      user_id := "11111111-1111-4111-8111-111111111111",
      project_id := "22222222-2222-4222-8222-222222222222",
      title := "T", created_at := "2024-01-01" }
    { id := "m1", thread_id := "33333333-3333-4333-8333-333333333333",
      role := "user", content := "hi", created_at := "2024-01-02" }
    (Except.error "down") (Except.error "down") false "gid" "2024-01-02" "x"
    "11111111-1111-4111-8111-111111111111"
    "22222222-2222-4222-8222-222222222222" "T" {} {}
    { threadId := some "33333333-3333-4333-8333-333333333333",
      role := some "user", content := some "hi" } [] [] []
    (by decide) (by decide) (by decide) (by decide)
  exact ⟨h.2.2.2.2.2.2.1, h.2.2.2.2.2.2.2⟩

/-- C8 confirmed: with the remote store configured, createSignedUrl returns
the cached URL without issuing a remote request exactly when the cache holds
an entry for the path whose recorded expiry lies more than five minutes
(300000 ms) after the current time; in that case the cache is unchanged and
the cached URL is returned. Otherwise a remote request is issued, and when
it succeeds the fresh URL is returned and recorded under the path with
expiry equal to now plus expiresInSec seconds. -/
theorem claim8_confirmed (remote : Except String String)
    (cache : List (String × CacheEntry)) (now sec : Nat) (path : String) :
    ((createSignedUrl true remote cache now path sec).requested = false
      ↔ ∃ c, jsMapGet cache path = some c ∧ now + 5 * 60 * 1000 < c.expiresAt) ∧
    ((createSignedUrl true remote cache now path sec).requested = false →
      (createSignedUrl true remote cache now path sec).cache = cache ∧
      ∃ c, jsMapGet cache path = some c ∧
        (createSignedUrl true remote cache now path sec).result = Except.ok c.url) ∧
    (∀ url, remote = Except.ok url →
      (createSignedUrl true remote cache now path sec).requested = true →
      (createSignedUrl true remote cache now path sec).result = Except.ok url ∧
      jsMapGet (createSignedUrl true remote cache now path sec).cache path
        = some { url := url, expiresAt := now + sec * 1000 }) := by
  cases hg : jsMapGet cache path with
  | none =>
    cases remote with
    | error e =>
      have hval : createSignedUrl true (Except.error e) cache now path sec
          = { result := Except.error "画像URLの取得に失敗しました", cache := cache,
              requested := true } := by
        rw [createSignedUrl.eq_def]
        simp only [Bool.not_true, Bool.false_eq_true, if_false, hg]
      rw [hval]
      refine ⟨by simp, by simp, ?_⟩
      intro url hu
      exact Except.noConfusion hu
    | ok url =>
      have hval : createSignedUrl true (Except.ok url) cache now path sec
          = { result := Except.ok url,
              cache := jsMapSet cache path ⟨url, now + sec * 1000⟩,
              requested := true } := by
        rw [createSignedUrl.eq_def]
        simp only [Bool.not_true, Bool.false_eq_true, if_false, hg]
      rw [hval]
      refine ⟨by simp, by simp, ?_⟩
      intro u hu _
      cases hu
      exact ⟨rfl, jsMapGet_set_self cache path _⟩
  | some c =>
    by_cases hc : now + 5 * 60 * 1000 < c.expiresAt
    · have hval : createSignedUrl true remote cache now path sec
          = { result := Except.ok c.url, cache := cache, requested := false } := by
        rw [createSignedUrl.eq_def]
        simp only [Bool.not_true, Bool.false_eq_true, if_false, hg]
        rw [if_pos hc]
      rw [hval]
      refine ⟨?_, ?_, ?_⟩
      · simp only [true_iff]
        exact ⟨c, rfl, hc⟩
      · intro _
        exact ⟨rfl, c, rfl, rfl⟩
      · intro url hu hreq
        exact Bool.noConfusion hreq
    · have hnofresh : ∀ out : SignedUrlOut, out.requested = true →
          ((out.requested = false
            ↔ ∃ c2, some c = some c2 ∧ now + 5 * 60 * 1000 < c2.expiresAt) ∧
           (out.requested = false → out.cache = cache ∧ ∃ c2, some c = some c2 ∧
              out.result = Except.ok c2.url)) := by
        intro out hreq
        constructor
        · rw [hreq]
          simp only [Bool.true_eq_false, false_iff, not_exists, not_and]
          intro c2 hc2
          cases hc2
          exact hc
        · intro hfalse
          rw [hreq] at hfalse
          exact Bool.noConfusion hfalse
      cases remote with
      | error e =>
        have hval : createSignedUrl true (Except.error e) cache now path sec
            = { result := Except.error "画像URLの取得に失敗しました", cache := cache,
                requested := true } := by
          rw [createSignedUrl.eq_def]
          simp only [Bool.not_true, Bool.false_eq_true, if_false, hg]
          rw [if_neg hc]
        rw [hval]
        refine ⟨(hnofresh _ rfl).1, (hnofresh _ rfl).2, ?_⟩
        intro url hu
        exact Except.noConfusion hu
      | ok url =>
        have hval : createSignedUrl true (Except.ok url) cache now path sec
            = { result := Except.ok url,
                cache := jsMapSet cache path ⟨url, now + sec * 1000⟩,
                requested := true } := by
          rw [createSignedUrl.eq_def]
          simp only [Bool.not_true, Bool.false_eq_true, if_false, hg]
          rw [if_neg hc]
        rw [hval]
        refine ⟨(hnofresh _ rfl).1, (hnofresh _ rfl).2, ?_⟩
        intro u hu _
        cases hu
        exact ⟨rfl, jsMapGet_set_self cache path _⟩

/-- C8 witness: the confirmed claim applied to a concrete cache — a fresh
entry (expiring well beyond five minutes from now) is served from the cache,
and a remote request on a different path records the signed URL with the
expected expiry. -/
theorem claim8_witness :
    (createSignedUrl true (Except.error "net") [("p", ⟨"cached-url", 1000000⟩)] 0 "p"
        3600).result = Except.ok "cached-url" ∧
    jsMapGet (createSignedUrl true (Except.ok "fresh-url") [] 500 "q" 3600).cache "q"
      = some { url := "fresh-url", expiresAt := 500 + 3600 * 1000 } := by
  constructor
  · have h := (claim8_confirmed (Except.error "net") [("p", ⟨"cached-url", 1000000⟩)]
      0 3600 "p").2.1 (by decide)
    obtain ⟨-, c, hc, hres⟩ := h
    have hcc : c = ⟨"cached-url", 1000000⟩ := by
      simp [jsMapGet, List.find?] at hc
      cases c
      simp_all
    rw [hres, hcc]
  · exact ((claim8_confirmed (Except.ok "fresh-url") [] 500 3600 "q").2.2 "fresh-url" rfl
      (by decide)).2

theorem filter_beq_after_bne_of {α : Type} (p q : α → Bool) (l : List α)
    (h : ∀ a, p a = !q a) : (l.filter p).filter q = [] := by
  rw [List.filter_eq_nil_iff]
  intro a ha
  have hp := List.of_mem_filter ha
  rw [h a] at hp
  simp only [Bool.not_eq_true', Bool.not_eq_true] at hp
  simp [hp]

theorem filter_self_of {α : Type} (q : α → Bool) (l : List α)
    (h : ∀ a ∈ l, q a = true) : l.filter q = l :=
  List.filter_eq_self.mpr h

theorem filter_nil_of {α : Type} (q : α → Bool) (l : List α)
    (h : ∀ a ∈ l, q a = false) : l.filter q = [] := by
  rw [List.filter_eq_nil_iff]
  intro a ha
  simp [h a ha]

theorem filter_idem {α : Type} (q : α → Bool) (l : List α) :
    (l.filter q).filter q = l.filter q :=
  List.filter_eq_self.mpr (fun _ ha => List.of_mem_filter ha)

theorem insertScoreRows_key (serverId : Nat → String) (setId serverNow : String)
    (scores : List ScoreInput) :
    ∀ x ∈ TestSetRepository.insertScoreRows serverId setId serverNow scores,
      x.test_set_id = setId := by
  intro x hx
  rw [TestSetRepository.insertScoreRows] at hx
  obtain ⟨p, _, rfl⟩ := List.mem_map.mp hx
  rfl

theorem insertScoreRows_subjects (serverId : Nat → String) (setId serverNow : String)
    (scores : List ScoreInput) :
    (TestSetRepository.insertScoreRows serverId setId serverNow scores).map
        (fun s => s.subject)
      = scores.map (fun s => s.subject) := by
  rw [TestSetRepository.insertScoreRows, List.map_map]
  have hcomp : ((fun s : TestScoreRow => s.subject) ∘
      (fun p : Nat × ScoreInput =>
        ({ id := serverId p.1, test_set_id := setId, subject := p.2.subject,
           score := p.2.score, average := p.2.average,
           max_score := (p.2.maxScore).getD 100,
           problem_images := some p.2.problemImages,
           answer_images := some p.2.answerImages,
           created_at := serverNow } : TestScoreRow)))
      = (fun s : ScoreInput => s.subject) ∘ Prod.snd := rfl
  rw [hcomp, ← List.map_map, List.enum_map_snd]

/-- C6 confirmed: after updateTestSet completes, the scores of the set
exactly equal the new score list by subject on either path. On the full
remote path the surviving remote score rows of the set are exactly the
freshly inserted rows (every prior row was deleted first), their subjects
are the input subjects in order, rows of other sets are untouched, and the
local collections are not modified. On the local path (also taken on any
remote failure, and directly when unconfigured) the stored score collection
of the set is fully overwritten by the new scores and rows of other sets
survive unchanged, so no score of the prior version and no stale row
remains. -/
theorem claim6_confirmed (serverId genId : Nat → String) (serverNow now id : String)
    (d : TestSetData) (scores : List ScoreInput) (db : RemoteDB)
    (ls : List TestSet) (lsc : List TestScore) (oldRow : TestSetRow)
    (oldSet : TestSet) (i : Nat) :
    (db.sets.find? (fun s => s.id == id) = some oldRow →
      (TestSetRepository.updateTestSet true false false false serverId serverNow genId
          id d scores now db ls lsc).db.scores.filter (fun s => s.test_set_id == id)
        = TestSetRepository.insertScoreRows serverId id serverNow scores ∧
      (TestSetRepository.updateTestSet true false false false serverId serverNow genId
          id d scores now db ls lsc).db.scores.filter (fun s => s.test_set_id != id)
        = db.scores.filter (fun s => s.test_set_id != id) ∧
      (TestSetRepository.insertScoreRows serverId id serverNow scores).map
          (fun s => s.subject) = scores.map (fun s => s.subject) ∧
      (TestSetRepository.updateTestSet true false false false serverId serverNow genId
          id d scores now db ls lsc).localSets = ls ∧
      (TestSetRepository.updateTestSet true false false false serverId serverNow genId
          id d scores now db ls lsc).localScores = lsc) ∧
    (ls.findIdx? (fun s => s.id == id) = some i →
      ls.find? (fun s => s.id == id) = some oldSet →
      (TestSetRepository.updateTestSetLocal genId id d scores now ls lsc).2.2.filter
          (fun s => s.testSetId == id)
        = (((TestSetRepository.updateTestSetLocal genId id d scores now ls lsc).1.map
            (fun r => r.scores)).getD []) ∧
      ((((TestSetRepository.updateTestSetLocal genId id d scores now ls lsc).1.map
          (fun r => r.scores)).getD []).map (fun s => s.subject))
        = scores.map (fun s => s.subject) ∧
      (TestSetRepository.updateTestSetLocal genId id d scores now ls lsc).2.2.filter
          (fun s => s.testSetId != id)
        = lsc.filter (fun s => s.testSetId != id)) ∧
    (∀ f1 f2 f3 : Bool,
      TestSetRepository.updateTestSet false f1 f2 f3 serverId serverNow genId
          id d scores now db ls lsc
        = { db := db,
            localSets :=
              (TestSetRepository.updateTestSetLocal genId id d scores now ls lsc).2.1,
            localScores :=
              (TestSetRepository.updateTestSetLocal genId id d scores now ls lsc).2.2,
            result :=
              (TestSetRepository.updateTestSetLocal genId id d scores now ls lsc).1 }) := by
  refine ⟨?_, ?_, ?_⟩
  · intro hfind
    have hins : ∀ x ∈ TestSetRepository.insertScoreRows serverId id serverNow scores,
        (x.test_set_id == id) = true := by
      intro x hx
      rw [insertScoreRows_key serverId id serverNow scores x hx]
      simp
    have hins2 : ∀ x ∈ TestSetRepository.insertScoreRows serverId id serverNow scores,
        (x.test_set_id != id) = false := by
      intro x hx
      rw [insertScoreRows_key serverId id serverNow scores x hx]
      simp
    have hval : TestSetRepository.updateTestSet true false false false serverId serverNow
        genId id d scores now db ls lsc
        = { db := { sets := db.sets.map (fun s => if s.id == id then
                      { oldRow with date := d.date, name := d.name, grade := d.grade,
                                    memo := d.memo, updated_at := some now } else s),
                    scores := (db.scores.filter (fun s => s.test_set_id != id))
                      ++ TestSetRepository.insertScoreRows serverId id serverNow scores },
            localSets := ls, localScores := lsc,
            result := some
              ⟨TestSetRepository.mapSetFromRow
                  { oldRow with date := d.date, name := d.name, grade := d.grade,
                                memo := d.memo, updated_at := some now },
                (TestSetRepository.insertScoreRows serverId id serverNow scores).map
                  TestSetRepository.mapScoreFromRow⟩ } := by
      rw [TestSetRepository.updateTestSet.eq_def]
      rw [hfind]
      rfl
    rw [hval]
    refine ⟨?_, ?_, insertScoreRows_subjects serverId id serverNow scores, rfl, rfl⟩
    · rw [List.filter_append,
        filter_beq_after_bne_of (fun s : TestScoreRow => s.test_set_id != id)
          (fun s : TestScoreRow => s.test_set_id == id) db.scores (fun a => rfl),
        filter_self_of _ _ hins, List.nil_append]
    · rw [List.filter_append, filter_idem, filter_nil_of _ _ hins2, List.append_nil]
  · intro hidx hget
    have hnew : ∀ x ∈ (scores.enum.map (fun p =>
        ({ id := genId p.1, testSetId := id, subject := p.2.subject,
           score := p.2.score, average := p.2.average,
           maxScore := (p.2.maxScore).getD 100,
           problemImages := p.2.problemImages,
           answerImages := p.2.answerImages, createdAt := now } : TestScore))),
        x.testSetId = id := by
      intro x hx
      obtain ⟨p, _, rfl⟩ := List.mem_map.mp hx
      rfl
    have hval : TestSetRepository.updateTestSetLocal genId id d scores now ls lsc
        = (some ⟨{ oldSet with date := d.date, name := d.name, grade := d.grade,
                               memo := d.memo, updatedAt := some now },
                 scores.enum.map (fun p =>
                   ({ id := genId p.1, testSetId := id, subject := p.2.subject,
                      score := p.2.score, average := p.2.average,
                      maxScore := (p.2.maxScore).getD 100,
                      problemImages := p.2.problemImages,
                      answerImages := p.2.answerImages, createdAt := now } : TestScore))⟩,
           ls.set i { oldSet with date := d.date, name := d.name, grade := d.grade,
                                  memo := d.memo, updatedAt := some now },
           lsc.filter (fun s => s.testSetId != id)
             ++ scores.enum.map (fun p =>
               ({ id := genId p.1, testSetId := id, subject := p.2.subject,
                  score := p.2.score, average := p.2.average,
                  maxScore := (p.2.maxScore).getD 100,
                  problemImages := p.2.problemImages,
                  answerImages := p.2.answerImages, createdAt := now } : TestScore))) := by
      rw [TestSetRepository.updateTestSetLocal.eq_def]
      rw [hidx, hget]
    rw [hval]
    refine ⟨?_, ?_, ?_⟩
    · rw [List.filter_append,
        filter_beq_after_bne_of (fun s : TestScore => s.testSetId != id)
          (fun s : TestScore => s.testSetId == id) lsc (fun a => rfl),
        filter_self_of _ _ (by
          intro x hx
          rw [hnew x hx]
          simp), List.nil_append]
      rfl
    · dsimp only [Option.map_some', Option.getD_some]
      rw [List.map_map]
      have hcomp : ((fun s : TestScore => s.subject) ∘
          (fun p : Nat × ScoreInput =>
            ({ id := genId p.1, testSetId := id, subject := p.2.subject,
               score := p.2.score, average := p.2.average,
               maxScore := (p.2.maxScore).getD 100,
               problemImages := p.2.problemImages,
               answerImages := p.2.answerImages, createdAt := now } : TestScore)))
          = (fun s : ScoreInput => s.subject) ∘ Prod.snd := rfl
      rw [hcomp, ← List.map_map, List.enum_map_snd]
    · have hnil : (scores.enum.map (fun p =>
          ({ id := genId p.1, testSetId := id, subject := p.2.subject,
             score := p.2.score, average := p.2.average,
             maxScore := (p.2.maxScore).getD 100,
             problemImages := p.2.problemImages,
             answerImages := p.2.answerImages, createdAt := now } : TestScore))).filter
            (fun s => s.testSetId != id) = [] := by
        refine filter_nil_of _ _ ?_
        intro x hx
        rw [hnew x hx]
        simp
      rw [List.filter_append, filter_idem, hnil, List.append_nil]
  · intro f1 f2 f3
    rfl

/-- C6 witness: the confirmed claim applied at a concrete database and store:
one existing set with one prior score row is updated with a single new math
score on both paths. -/
theorem claim6_witness :
    ((TestSetRepository.updateTestSet true false false false (fun n => toString n)
        "srvnow" (fun n => toString (n + 10)) "s1"
        { date := "2025-01-01", name := "midterm" } [{ subject := "math", score := 80 }]
        "now"
        { sets := [{ id := "s1", user_id := "u1", date := "2024-12-01", name := "old",
                     created_at := "2024-11-01" }],
          scores := [{ id := "old1", test_set_id := "s1", subject := "韓国語", score := 10,
                       max_score := 100, created_at := "2024-11-01" }] }
        [{ id := "s1", userId := "u1", date := "2024-12-01", name := "old",
           createdAt := "2024-11-01" }]
        [{ id := "old1", testSetId := "s1", subject := "韓国語", score := 10,
           maxScore := 100, createdAt := "2024-11-01" }]).db.scores.filter
        (fun s => s.test_set_id == "s1")).map (fun s => s.subject)
      = ["math"] ∧
    ((TestSetRepository.updateTestSetLocal (fun n => toString (n + 10)) "s1"
        { date := "2025-01-01", name := "midterm" } [{ subject := "math", score := 80 }]
        "now"
        [{ id := "s1", userId := "u1", date := "2024-12-01", name := "old",
           createdAt := "2024-11-01" }]
        [{ id := "old1", testSetId := "s1", subject := "韓国語", score := 10,
           maxScore := 100, createdAt := "2024-11-01" }]).2.2.filter
        (fun s => s.testSetId == "s1")).map (fun s => s.subject)
      = ["math"] := by
  have h := claim6_confirmed (fun n => toString n) (fun n => toString (n + 10))
    "srvnow" "now" "s1" { date := "2025-01-01", name := "midterm" }
    [{ subject := "math", score := 80 }]
    { sets := [{ id := "s1", user_id := "u1", date := "2024-12-01", name := "old",
                 created_at := "2024-11-01" }],
      scores := [{ id := "old1", test_set_id := "s1", subject := "韓国語", score := 10,
                   max_score := 100, created_at := "2024-11-01" }] }
    [{ id := "s1", userId := "u1", date := "2024-12-01", name := "old",
       createdAt := "2024-11-01" }]
    [{ id := "old1", testSetId := "s1", subject := "韓国語", score := 10,
       maxScore := 100, createdAt := "2024-11-01" }]
    { id := "s1", user_id := "u1", date := "2024-12-01", name := "old",
      created_at := "2024-11-01" }
    { id := "s1", userId := "u1", date := "2024-12-01", name := "old",
      createdAt := "2024-11-01" } 0
  obtain ⟨hr, hl, -⟩ := h
  have hr2 := hr (by decide)
  have hl2 := hl (by decide) (by decide)
  constructor
  · rw [hr2.1]
    decide
  · rw [hl2.1]
    decide

/-! ## Lemmas for the identifier generator -/

theorem hexLower_hexDigit {n : Nat} (h : n < 16) : isHexLower (hexDigit n) = true := by
  have hall : ∀ m, m < 16 → isHexLower (hexDigit m) = true := by decide
  exact hall n h

theorem div16_lt {m : Nat} (h : m < 256) : m / 16 < 16 := by omega

theorem mod16_lt (m : Nat) : m % 16 < 16 := Nat.mod_lt _ (by norm_num)

theorem versionChar (m : Nat) : hexDigit (((m &&& 15) ||| 64) / 16) = '4' := by
  have h : m &&& 15 < 16 := Nat.lt_succ_of_le Nat.and_le_right
  have hall : ∀ x, x < 16 → hexDigit ((x ||| 64) / 16) = '4' := by decide
  exact hall _ h

theorem variantChar (m : Nat) :
    hexDigit (((m &&& 63) ||| 128) / 16) = '8' ∨
    hexDigit (((m &&& 63) ||| 128) / 16) = '9' ∨
    hexDigit (((m &&& 63) ||| 128) / 16) = 'a' ∨
    hexDigit (((m &&& 63) ||| 128) / 16) = 'b' := by
  have h : m &&& 63 < 64 := Nat.lt_succ_of_le Nat.and_le_right
  have hall : ∀ x, x < 64 →
      (hexDigit ((x ||| 128) / 16) = '8' ∨ hexDigit ((x ||| 128) / 16) = '9' ∨
       hexDigit ((x ||| 128) / 16) = 'a' ∨ hexDigit ((x ||| 128) / 16) = 'b') := by decide
  exact hall _ h

theorem yChar (r : Nat) :
    hexDigit ((r &&& 3) ||| 8) = '8' ∨ hexDigit ((r &&& 3) ||| 8) = '9' ∨
    hexDigit ((r &&& 3) ||| 8) = 'a' ∨ hexDigit ((r &&& 3) ||| 8) = 'b' := by
  have h : r &&& 3 < 4 := Nat.lt_succ_of_le Nat.and_le_right
  have hall : ∀ x, x < 4 →
      (hexDigit (x ||| 8) = '8' ∨ hexDigit (x ||| 8) = '9' ∨
       hexDigit (x ||| 8) = 'a' ∨ hexDigit (x ||| 8) = 'b') := by decide
  exact hall _ h

theorem uuidLayoutHelper
    (a1 a2 a3 a4 a5 a6 a7 a8 b1 b2 b3 b4 c2 c3 c4 w e2 e3 e4
     f1 f2 f3 f4 f5 f6 f7 f8 f9 f10 f11 f12 : Char)
    (g1 : isHexLower a1 = true) (g2 : isHexLower a2 = true)
    (g3 : isHexLower a3 = true) (g4 : isHexLower a4 = true)
    (g5 : isHexLower a5 = true) (g6 : isHexLower a6 = true)
    (g7 : isHexLower a7 = true) (g8 : isHexLower a8 = true)
    (g9 : isHexLower b1 = true) (g10 : isHexLower b2 = true)
    (g11 : isHexLower b3 = true) (g12 : isHexLower b4 = true)
    (g13 : isHexLower c2 = true) (g14 : isHexLower c3 = true)
    (g15 : isHexLower c4 = true)
    (g16 : isHexLower e2 = true) (g17 : isHexLower e3 = true)
    (g18 : isHexLower e4 = true)
    (g19 : isHexLower f1 = true) (g20 : isHexLower f2 = true)
    (g21 : isHexLower f3 = true) (g22 : isHexLower f4 = true)
    (g23 : isHexLower f5 = true) (g24 : isHexLower f6 = true)
    (g25 : isHexLower f7 = true) (g26 : isHexLower f8 = true)
    (g27 : isHexLower f9 = true) (g28 : isHexLower f10 = true)
    (g29 : isHexLower f11 = true) (g30 : isHexLower f12 = true)
    (hw : w = '8' ∨ w = '9' ∨ w = 'a' ∨ w = 'b') :
    isUuidV4Layout (String.mk
      [a1, a2, a3, a4, a5, a6, a7, a8, '-',
       b1, b2, b3, b4, '-',
       '4', c2, c3, c4, '-',
       w, e2, e3, e4, '-',
       f1, f2, f3, f4, f5, f6, f7, f8, f9, f10, f11, f12]) = true := by
  have hwhex : isHexLower w = true := by
    rcases hw with rfl | rfl | rfl | rfl <;> decide
  rw [isUuidV4Layout]
  simp only [Bool.and_eq_true]
  refine ⟨⟨?_, ?_⟩, ?_⟩
  · have h4 : isHexLower '4' = true := by decide
    rw [isValidUuid.eq_def]
    simp [g1, g2, g3, g4, g5, g6, g7, g8, g9, g10, g11, g12, g13, g14, g15, g16,
      g17, g18, g19, g20, g21, g22, g23, g24, g25, g26, g27, g28, g29, g30, hwhex, h4]
  · rfl
  · rcases hw with rfl | rfl | rfl | rfl <;> rfl

theorem isUuidV4Layout_uuidFromBytes (b : Fin 16 → Nat) (hb : ∀ i, b i < 256) :
    isUuidV4Layout (uuidFromBytes b) = true := by
  have he : uuidFromBytes b = String.mk
      [hexDigit (b 0 / 16), hexDigit (b 0 % 16), hexDigit (b 1 / 16), hexDigit (b 1 % 16),
       hexDigit (b 2 / 16), hexDigit (b 2 % 16), hexDigit (b 3 / 16), hexDigit (b 3 % 16), '-',
       hexDigit (b 4 / 16), hexDigit (b 4 % 16), hexDigit (b 5 / 16), hexDigit (b 5 % 16), '-',
       hexDigit (((b 6 &&& 15) ||| 64) / 16), hexDigit (((b 6 &&& 15) ||| 64) % 16),
       hexDigit (b 7 / 16), hexDigit (b 7 % 16), '-',
       hexDigit (((b 8 &&& 63) ||| 128) / 16), hexDigit (((b 8 &&& 63) ||| 128) % 16),
       hexDigit (b 9 / 16), hexDigit (b 9 % 16), '-',
       hexDigit (b 10 / 16), hexDigit (b 10 % 16), hexDigit (b 11 / 16), hexDigit (b 11 % 16),
       hexDigit (b 12 / 16), hexDigit (b 12 % 16), hexDigit (b 13 / 16), hexDigit (b 13 % 16),
       hexDigit (b 14 / 16), hexDigit (b 14 % 16), hexDigit (b 15 / 16),
       hexDigit (b 15 % 16)] := rfl
  rw [he, versionChar (b 6)]
  apply uuidLayoutHelper <;>
    first
    | exact hexLower_hexDigit (div16_lt (hb _))
    | exact hexLower_hexDigit (mod16_lt _)
    | exact variantChar (b 8)

theorem isUuidV4Layout_mathRandomUuid (rand : Nat → Nat) (h : ∀ k, rand k < 16) :
    isUuidV4Layout (mathRandomUuid rand) = true := by
  have he : mathRandomUuid rand = String.mk
      [hexDigit (rand 0), hexDigit (rand 1), hexDigit (rand 2), hexDigit (rand 3),
       hexDigit (rand 4), hexDigit (rand 5), hexDigit (rand 6), hexDigit (rand 7), '-',
       hexDigit (rand 8), hexDigit (rand 9), hexDigit (rand 10), hexDigit (rand 11), '-',
       '4', hexDigit (rand 12), hexDigit (rand 13), hexDigit (rand 14), '-',
       hexDigit ((rand 15 &&& 3) ||| 8), hexDigit (rand 16), hexDigit (rand 17),
       hexDigit (rand 18), '-',
       hexDigit (rand 19), hexDigit (rand 20), hexDigit (rand 21), hexDigit (rand 22),
       hexDigit (rand 23), hexDigit (rand 24), hexDigit (rand 25), hexDigit (rand 26),
       hexDigit (rand 27), hexDigit (rand 28), hexDigit (rand 29),
       hexDigit (rand 30)] := rfl
  rw [he]
  apply uuidLayoutHelper <;>
    first
    | exact hexLower_hexDigit (h _)
    | exact yChar (rand 15)

/-- C9 confirmed: generateId is a total function of the platform state (it
never throws), and on each of its three tiers — the platform secure-UUID
primitive, the random-byte assembly, and the Math.random fallback — the
returned string has the UUID textual layout
xxxxxxxx-xxxx-4xxx-yxxx-xxxxxxxxxxxx with the version nibble 4 and the
variant nibble in 8, 9, a, b; the hypotheses state that the crypto byte
sources yield bytes (below 256) and the floored scaled Math.random values
are below 16, which the runtime guarantees. -/
theorem claim9_confirmed (p : CryptoPlatform) (h1 : ∀ i, p.uuidBytes i < 256)
    (h2 : ∀ i, p.randomBytes i < 256) (h3 : ∀ k, p.mathRandom k < 16) :
    isUuidV4Layout (generateId p) = true := by
  rw [generateId]
  split
  · exact isUuidV4Layout_uuidFromBytes p.uuidBytes h1
  · split
    · exact isUuidV4Layout_uuidFromBytes p.randomBytes h2
    · exact isUuidV4Layout_mathRandomUuid p.mathRandom h3

/-- C9 witness: the confirmed claim applied to a concrete platform that lacks
the secure-UUID primitive and assembles the byte value 171 sixteen times. -/
theorem claim9_witness :
    isUuidV4Layout (generateId
      { hasRandomUUID := false, randomUUIDThrows := false, uuidBytes := fun _ => 0,
        hasGetRandomValues := true, getRandomValuesThrows := false,
        randomBytes := fun _ => 171, mathRandom := fun _ => 5 }) = true :=
  claim9_confirmed _
    (by intro i; show (0 : Nat) < 256; decide)
    (by intro i; show (171 : Nat) < 256; decide)
    (by intro k; show (5 : Nat) < 16; decide)

/-! ## Lemmas about the JavaScript Map model, for the project service -/

theorem jsMapGet_none_forall {β : Type} (m : List (String × β)) (k : String)
    (h : jsMapGet m k = none) : ∀ e ∈ m, e.1 ≠ k := by
  intro e he hk
  rw [jsMapGet, Option.map_eq_none'] at h
  rw [List.find?_eq_none] at h
  exact h e he (by simp [hk])

theorem jsMapGet_mem {β : Type} (m : List (String × β)) (k : String) (v : β)
    (h : jsMapGet m k = some v) : (k, v) ∈ m := by
  rw [jsMapGet] at h
  obtain ⟨e, he, hv⟩ := Option.map_eq_some'.mp h
  have hk : e.1 = k := by
    have := List.find?_some he
    simpa using this
  have hm := List.mem_of_find?_eq_some he
  have : e = (k, v) := by
    cases e
    simp_all
  rw [← this]
  exact hm

theorem jsMapGet_eq_some_of_mem {β : Type} (m : List (String × β)) (e : String × β)
    (hn : (m.map Prod.fst).Nodup) (he : e ∈ m) : jsMapGet m e.1 = some e.2 := by
  induction m with
  | nil => cases he
  | cons x xs ih =>
    rcases List.mem_cons.mp he with rfl | htail
    · rw [jsMapGet, List.find?_cons_of_pos _ (by simp)]
      rfl
    · have hx : x.1 ≠ e.1 := by
        intro hcontra
        have : e.1 ∈ xs.map Prod.fst := List.mem_map.mpr ⟨e, htail, rfl⟩
        rw [List.map_cons] at hn
        exact (List.nodup_cons.mp hn).1 (hcontra ▸ this)
      rw [jsMapGet, List.find?_cons_of_neg _ (by simp [hx])]
      have hn2 : (xs.map Prod.fst).Nodup := by
        rw [List.map_cons] at hn
        exact (List.nodup_cons.mp hn).2
      exact ih hn2 htail

theorem jsMapGet_some_any {β : Type} (m : List (String × β)) (k : String) (v : β)
    (h : jsMapGet m k = some v) : m.any (fun e => e.1 == k) = true :=
  List.any_eq_true.mpr ⟨(k, v), jsMapGet_mem m k v h, by simp⟩

theorem jsMapSet_absent {β : Type} (m : List (String × β)) (k : String) (v : β)
    (h : jsMapGet m k = none) : jsMapSet m k v = m ++ [(k, v)] := by
  rw [jsMapSet, if_neg]
  intro hany
  obtain ⟨e, he, hk⟩ := List.any_eq_true.mp hany
  exact jsMapGet_none_forall m k h e he (by simpa using hk)

theorem jsMapSet_present {β : Type} (m : List (String × β)) (k : String) (v : β)
    (h : m.any (fun e => e.1 == k) = true) :
    jsMapSet m k v = m.map (fun e => if e.1 == k then (k, v) else e) := by
  rw [jsMapSet, if_pos h]

theorem map_fst_replace {β : Type} (m : List (String × β)) (k : String) (v : β) :
    (m.map (fun e => if e.1 == k then (k, v) else e)).map Prod.fst = m.map Prod.fst := by
  rw [List.map_map]
  apply List.map_congr_left
  intro e _
  by_cases h : (e.1 == k) = true
  · have hk := beq_iff_eq.mp h
    simp [Function.comp, h, hk]
  · simp [Function.comp, h]

theorem replace_vals_perm {β : Type} (m : List (String × β)) (k : String)
    (v existing : β) (hn : (m.map Prod.fst).Nodup)
    (h : jsMapGet m k = some existing) :
    List.Perm
      ((m.map (fun e => if e.1 == k then (k, v) else e)).map Prod.snd ++ [existing])
      (m.map Prod.snd ++ [v]) := by
  induction m with
  | nil => simp [jsMapGet] at h
  | cons x xs ih =>
    rw [List.map_cons] at hn
    obtain ⟨hx_notin, hn2⟩ := List.nodup_cons.mp hn
    by_cases hx : (x.1 == k) = true
    · have hex : existing = x.2 := by
        rw [jsMapGet,
          List.find?_cons_of_pos (p := fun e => e.1 == k) (a := x) _ hx] at h
        simpa using h.symm
      have htail : xs.map (fun e => if e.1 == k then (k, v) else e) = xs := by
        apply (List.map_congr_left ?_).trans (List.map_id xs)
        intro e he
        have : e.1 ≠ k := by
          intro hcontra
          apply hx_notin
          rw [beq_iff_eq.mp hx, ← hcontra]
          exact List.mem_map.mpr ⟨e, he, rfl⟩
        simp [this]
      rw [List.map_cons, if_pos hx, htail, hex]
      show List.Perm (v :: (xs.map Prod.snd ++ [x.2])) (x.2 :: xs.map Prod.snd ++ [v])
      calc
        List.Perm (v :: (xs.map Prod.snd ++ [x.2]))
            (v :: x.2 :: xs.map Prod.snd) :=
          List.Perm.cons v (List.perm_append_singleton _ _)
        List.Perm (v :: x.2 :: xs.map Prod.snd) (x.2 :: v :: xs.map Prod.snd) :=
          List.Perm.swap _ _ _
        List.Perm (x.2 :: v :: xs.map Prod.snd) (x.2 :: xs.map Prod.snd ++ [v]) :=
          List.Perm.cons x.2 (List.perm_append_singleton _ _).symm
    · have h2 : jsMapGet xs k = some existing := by
        rw [jsMapGet,
          List.find?_cons_of_neg (p := fun e => e.1 == k) (a := x) _ hx] at h
        exact h
      rw [List.map_cons, if_neg hx, List.map_cons, List.cons_append, List.map_cons,
        List.cons_append]
      exact List.Perm.cons x.2 (ih hn2 h2)

/-- The invariant maintained while normalizeProjects folds over the listed
projects: every map entry is keyed by its project name, keys are distinct,
the kept values plus the duplicates are a permutation of the processed
projects, every kept value has minimal createdAt among processed projects of
its name, and every processed name has an entry. -/
def NormInv (acc : List (String × Project) × List Project) (done : List Project) : Prop :=
  (∀ e ∈ acc.1, e.2.name = e.1) ∧
  ((acc.1.map Prod.fst).Nodup) ∧
  (List.Perm (acc.1.map Prod.snd ++ acc.2) done) ∧
  (∀ e ∈ acc.1, ∀ q ∈ done, q.name = e.1 → e.2.createdAt ≤ q.createdAt) ∧
  (∀ q ∈ done, ∃ e ∈ acc.1, e.1 = q.name)

theorem normStep_inv (acc : List (String × Project) × List Project)
    (done : List Project) (p : Project) (h : NormInv acc done) :
    NormInv (ProjectService.normStep acc p) (done ++ [p]) := by
  obtain ⟨hname, hkeys, hperm, hmin, hcov⟩ := h
  cases hlook : jsMapGet acc.1 p.name with
  | none =>
    have hstep : ProjectService.normStep acc p = (jsMapSet acc.1 p.name p, acc.2) := by
      rw [ProjectService.normStep, hlook]
    have habs : jsMapSet acc.1 p.name p = acc.1 ++ [(p.name, p)] :=
      jsMapSet_absent _ _ _ hlook
    rw [hstep, habs]
    refine ⟨?_, ?_, ?_, ?_, ?_⟩
    · intro e he
      rcases List.mem_append.mp he with h1 | h1
      · exact hname e h1
      · simp at h1
        subst h1
        rfl
    · rw [List.map_append]
      rw [List.nodup_append]
      refine ⟨hkeys, by simp, ?_⟩
      intro a ha hb
      simp at hb
      subst hb
      obtain ⟨e, he, hke⟩ := List.mem_map.mp ha
      exact jsMapGet_none_forall _ _ hlook e he hke
    · rw [List.map_append]
      calc
        List.Perm ((acc.1.map Prod.snd ++ [(p.name, p).2]) ++ acc.2)
            ((acc.1.map Prod.snd ++ acc.2) ++ [p]) := by
          simp only [List.append_assoc]
          exact List.Perm.append_left _ (List.perm_append_comm)
        List.Perm ((acc.1.map Prod.snd ++ acc.2) ++ [p]) (done ++ [p]) :=
          List.Perm.append_right _ hperm
    · intro e he q hq hqname
      rcases List.mem_append.mp he with h1 | h1
      · rcases List.mem_append.mp hq with h2 | h2
        · exact hmin e h1 q h2 hqname
        · simp at h2
          subst h2
          exact absurd (hqname.symm) (jsMapGet_none_forall _ _ hlook e h1)
      · simp at h1
        subst h1
        have hq1 : q.name = p.name := by simpa using hqname
        rcases List.mem_append.mp hq with h2 | h2
        · obtain ⟨e2, he2, hke2⟩ := hcov q h2
          exact absurd (hke2.trans hq1) (jsMapGet_none_forall _ _ hlook e2 he2)
        · simp at h2
          subst h2
          simp
    · intro q hq
      rcases List.mem_append.mp hq with h1 | h1
      · obtain ⟨e, he, hke⟩ := hcov q h1
        exact ⟨e, List.mem_append_left _ he, hke⟩
      · simp at h1
        rw [h1]
        exact ⟨(p.name, p), List.mem_append_right _ (by simp), rfl⟩
  | some existing =>
    have hmem : (p.name, existing) ∈ acc.1 := jsMapGet_mem _ _ _ hlook
    have hexmin : ∀ q ∈ done, q.name = p.name → existing.createdAt ≤ q.createdAt := by
      intro q hq hqname
      exact hmin (p.name, existing) hmem q hq hqname
    by_cases hle : existing.createdAt ≤ p.createdAt
    · have hstep : ProjectService.normStep acc p = (acc.1, acc.2 ++ [p]) := by
        rw [ProjectService.normStep, hlook]
        simp [hle]
      rw [hstep]
      refine ⟨hname, hkeys, ?_, ?_, ?_⟩
      · calc
          List.Perm (acc.1.map Prod.snd ++ (acc.2 ++ [p]))
              ((acc.1.map Prod.snd ++ acc.2) ++ [p]) := by
            rw [List.append_assoc]
          List.Perm ((acc.1.map Prod.snd ++ acc.2) ++ [p]) (done ++ [p]) :=
            List.Perm.append_right _ hperm
      · intro e he q hq hqname
        rcases List.mem_append.mp hq with h2 | h2
        · exact hmin e he q h2 hqname
        · simp at h2
          subst h2
          have : jsMapGet acc.1 e.1 = some e.2 := jsMapGet_eq_some_of_mem _ e hkeys he
          rw [← hqname] at this
          rw [hlook] at this
          have hx : existing = e.2 := by simpa using this
          rw [← hx]
          exact hle
      · intro q hq
        rcases List.mem_append.mp hq with h1 | h1
        · exact hcov q h1
        · simp at h1
          rw [h1]
          exact ⟨(p.name, existing), hmem, rfl⟩
    · have hstep : ProjectService.normStep acc p
          = (jsMapSet acc.1 p.name p, acc.2 ++ [existing]) := by
        rw [ProjectService.normStep, hlook]
        simp [hle]
      have hany : acc.1.any (fun e => e.1 == p.name) = true :=
        jsMapGet_some_any _ _ _ hlook
      have hrepl := jsMapSet_present acc.1 p.name p hany
      rw [hstep, hrepl]
      have hplt : p.createdAt < existing.createdAt := not_le.mp hle
      refine ⟨?_, ?_, ?_, ?_, ?_⟩
      · intro e he
        obtain ⟨e0, he0, hge⟩ := List.mem_map.mp he
        by_cases h0 : (e0.1 == p.name) = true
        · rw [← hge]
          simp [h0]
        · rw [← hge]
          rw [if_neg h0]
          exact hname e0 he0
      · rw [map_fst_replace]
        exact hkeys
      · have hv := replace_vals_perm acc.1 p.name p existing hkeys hlook
        calc
          List.Perm
              ((acc.1.map (fun e => if e.1 == p.name then (p.name, p) else e)).map
                  Prod.snd ++ (acc.2 ++ [existing]))
              (((acc.1.map (fun e => if e.1 == p.name then (p.name, p) else e)).map
                  Prod.snd ++ [existing]) ++ acc.2) := by
            simp only [List.append_assoc]
            exact List.Perm.append_left _ (List.perm_append_comm)
          List.Perm
              (((acc.1.map (fun e => if e.1 == p.name then (p.name, p) else e)).map
                  Prod.snd ++ [existing]) ++ acc.2)
              ((acc.1.map Prod.snd ++ [p]) ++ acc.2) :=
            List.Perm.append_right _ hv
          List.Perm ((acc.1.map Prod.snd ++ [p]) ++ acc.2)
              ((acc.1.map Prod.snd ++ acc.2) ++ [p]) := by
            simp only [List.append_assoc]
            exact List.Perm.append_left _ (List.perm_append_comm)
          List.Perm ((acc.1.map Prod.snd ++ acc.2) ++ [p]) (done ++ [p]) :=
            List.Perm.append_right _ hperm
      · intro e he q hq hqname
        obtain ⟨e0, he0, hge⟩ := List.mem_map.mp he
        by_cases h0 : (e0.1 == p.name) = true
        · rw [← hge] at hqname ⊢
          rw [if_pos h0] at hqname ⊢
          rcases List.mem_append.mp hq with h2 | h2
          · exact le_of_lt (lt_of_lt_of_le hplt (hexmin q h2 hqname))
          · simp at h2
            subst h2
            exact le_refl _
        · rw [← hge] at hqname ⊢
          rw [if_neg h0] at hqname ⊢
          rcases List.mem_append.mp hq with h2 | h2
          · exact hmin e0 he0 q h2 hqname
          · simp at h2
            subst h2
            exact absurd (beq_iff_eq.mpr hqname.symm) h0
      · intro q hq
        rcases List.mem_append.mp hq with h1 | h1
        · obtain ⟨e, he, hke⟩ := hcov q h1
          refine ⟨(if e.1 == p.name then (p.name, p) else e), List.mem_map.mpr ⟨e, he, rfl⟩, ?_⟩
          by_cases h0 : (e.1 == p.name) = true
          · rw [if_pos h0]
            rw [← hke]
            exact (beq_iff_eq.mp h0).symm
          · rw [if_neg h0]
            exact hke
        · simp at h1
          rw [h1]
          refine ⟨(p.name, p), List.mem_map.mpr ⟨(p.name, existing), hmem, ?_⟩, rfl⟩
          simp

theorem norm_inv_aux (l : List Project) :
    ∀ acc done, NormInv acc done →
      NormInv (l.foldl ProjectService.normStep acc) (done ++ l) := by
  induction l with
  | nil =>
    intro acc done h
    simpa using h
  | cons p l ih =>
    intro acc done h
    rw [List.foldl_cons]
    have h2 := ih (ProjectService.normStep acc p) (done ++ [p]) (normStep_inv acc done p h)
    rw [List.append_assoc] at h2
    simpa using h2

theorem norm_inv (projects : List Project) :
    NormInv (projects.foldl ProjectService.normStep ([], [])) projects := by
  have h0 : NormInv ([], []) [] :=
    ⟨by simp, by simp, by simp, by simp, by simp⟩
  simpa using norm_inv_aux projects ([], []) [] h0

/-- Characterization of normalizeProjects: the kept projects have pairwise
distinct names, kept plus duplicates is a permutation of the input, and each
kept project has minimal createdAt among input projects of its name. -/
theorem normalizeProjects_spec (l : List Project) :
    (((ProjectService.normalizeProjects l).1.map (fun p => p.name)).Nodup) ∧
    (List.Perm ((ProjectService.normalizeProjects l).1
        ++ (ProjectService.normalizeProjects l).2) l) ∧
    (∀ p ∈ (ProjectService.normalizeProjects l).1, ∀ q ∈ l,
       q.name = p.name → p.createdAt ≤ q.createdAt) := by
  obtain ⟨hname, hkeys, hperm, hmin, hcov⟩ := norm_inv l
  have h1 : (ProjectService.normalizeProjects l).1
      = (l.foldl ProjectService.normStep ([], [])).1.map Prod.snd := rfl
  have h2 : (ProjectService.normalizeProjects l).2
      = (l.foldl ProjectService.normStep ([], [])).2 := rfl
  refine ⟨?_, ?_, ?_⟩
  · rw [h1, List.map_map]
    have he : (l.foldl ProjectService.normStep ([], [])).1.map
        ((fun p => p.name) ∘ Prod.snd)
        = (l.foldl ProjectService.normStep ([], [])).1.map Prod.fst :=
      List.map_congr_left (fun e he => hname e he)
    rw [he]
    exact hkeys
  · rw [h1, h2]
    exact hperm
  · intro p hp q hq hqname
    rw [h1] at hp
    obtain ⟨e, he, rfl⟩ := List.mem_map.mp hp
    exact hmin e he q hq (hqname.trans (hname e he))

theorem normalize_nodup_aux (l : List Project) :
    ∀ m : List (String × Project),
      ((m.map Prod.fst ++ l.map (fun p => p.name)).Nodup) →
      l.foldl ProjectService.normStep (m, [])
        = (m ++ l.map (fun p => (p.name, p)), []) := by
  induction l with
  | nil =>
    intro m _
    simp
  | cons p l ih =>
    intro m h
    have hdisj := (List.nodup_append.mp h).2.2
    have hlook : jsMapGet m p.name = none := by
      rw [jsMapGet, Option.map_eq_none', List.find?_eq_none]
      intro e he
      simp only [beq_iff_eq]
      intro hcontra
      exact hdisj (List.mem_map.mpr ⟨e, he, rfl⟩) (by simp [hcontra])
    have hstep : ProjectService.normStep (m, []) p = (jsMapSet m p.name p, []) := by
      rw [ProjectService.normStep, hlook]
    rw [List.foldl_cons, hstep, jsMapSet_absent _ _ _ hlook]
    have hnodup2 : ((m ++ [(p.name, p)]).map Prod.fst
        ++ l.map (fun p => p.name)).Nodup := by
      rw [List.map_append]
      rw [List.append_assoc]
      simpa using h
    rw [ih (m ++ [(p.name, p)]) hnodup2]
    simp

theorem normalize_nodup (l : List Project)
    (h : (l.map (fun p => p.name)).Nodup) :
    ProjectService.normalizeProjects l = (l, []) := by
  rw [ProjectService.normalizeProjects]
  rw [normalize_nodup_aux l [] (by simpa using h)]
  simp only [List.nil_append, List.map_map]
  rw [show ((fun e : String × Project => e.2) ∘ fun p : Project => (p.name, p)) = id from rfl]
  simp

theorem foldl_filter_eq {α : Type} (key : α → String) (ds : List Project) :
    ∀ s : List α,
      ds.foldl (fun s p => s.filter (fun q => key q != p.id)) s
        = s.filter (fun q => ds.all (fun d => key q != d.id)) := by
  induction ds with
  | nil =>
    intro s
    simp
  | cons d ds ih =>
    intro s
    rw [List.foldl_cons, ih, List.filter_filter]
    apply List.filter_congr
    intro q _
    rw [List.all_cons]
    exact Bool.and_comm _ _

theorem filter_comp_map {α β : Type} (f : α → β) (p : β → Bool) (l : List α) :
    (l.filter (fun a => p (f a))).map f = (l.map f).filter p := by
  induction l with
  | nil => rfl
  | cons a l ih =>
    by_cases h : p (f a) = true
    · simp [List.filter_cons, h, ih]
    · simp only [Bool.not_eq_true] at h
      simp [List.filter_cons, h, ih]

theorem append_map_ne {α : Type} (f : α → String) (l1 l2 : List α)
    (h : ((l1 ++ l2).map f).Nodup) :
    ∀ a ∈ l1, ∀ b ∈ l2, f a ≠ f b := by
  intro a ha b hb heq
  rw [List.map_append] at h
  obtain ⟨-, -, hdisj⟩ := List.nodup_append.mp h
  exact hdisj (List.mem_map.mpr ⟨a, ha, rfl⟩) (heq ▸ List.mem_map.mpr ⟨b, hb, rfl⟩)

theorem deleteFold_fst (cfg : Bool) (delOk : String → Bool) (ds : List Project) :
    ∀ acc : List ProjectRow × List Project,
      (ds.foldl (fun a p => ProjectRepository.deleteStep cfg delOk a p.id) acc).1
        = ds.foldl (fun s p => if cfg && delOk p.id then
            s.filter (fun r => r.id != p.id) else s) acc.1 := by
  induction ds with
  | nil => intro acc; rfl
  | cons d ds ih =>
    intro acc
    rw [List.foldl_cons, List.foldl_cons, ih]
    rfl

theorem deleteFold_snd (cfg : Bool) (delOk : String → Bool) (ds : List Project) :
    ∀ acc : List ProjectRow × List Project,
      (ds.foldl (fun a p => ProjectRepository.deleteStep cfg delOk a p.id) acc).2
        = ds.foldl (fun s p => s.filter (fun q => q.id != p.id)) acc.2 := by
  induction ds with
  | nil => intro acc; rfl
  | cons d ds ih =>
    intro acc
    rw [List.foldl_cons, List.foldl_cons, ih]
    rfl

theorem condFold_sublist (c : Project → Bool) (ds : List Project) :
    ∀ s : List ProjectRow,
      List.Sublist (ds.foldl (fun s p => if c p then
        s.filter (fun r => r.id != p.id) else s) s) s := by
  induction ds with
  | nil => intro s; simp
  | cons d ds ih =>
    intro s
    rw [List.foldl_cons]
    by_cases h : c d = true
    · rw [if_pos h]
      exact (ih _).trans (List.filter_sublist s)
    · rw [if_neg h]
      exact ih s

theorem condFold_not_mem (c : Project → Bool) (ds : List Project) :
    ∀ s : List ProjectRow, ∀ d ∈ ds, c d = true →
      ∀ r ∈ ds.foldl (fun s p => if c p then
        s.filter (fun x => x.id != p.id) else s) s,
      r.id ≠ d.id := by
  induction ds with
  | nil =>
    intro s d hd
    exact absurd hd (List.not_mem_nil d)
  | cons a ds ih =>
    intro s d hd hc r hr
    rw [List.foldl_cons] at hr
    rcases List.mem_cons.mp hd with heq | htail
    · subst heq
      have hr0 : r ∈ (if c d then s.filter (fun x => x.id != d.id) else s) :=
        (condFold_sublist c ds _).subset hr
      rw [if_pos hc] at hr0
      simpa [bne_iff_ne] using (List.mem_filter.mp hr0).2
    · exact ih _ d htail hc r hr

theorem findByUserId_owner (cfg qOk : Bool) (db : List ProjectRow)
    (store : List Project) (u : String) :
    ∀ p ∈ ProjectRepository.findByUserId cfg qOk db store u, p.userId = u := by
  intro p hp
  rw [ProjectRepository.findByUserId] at hp
  by_cases h : cfg = true
  · rw [if_pos h] at hp
    by_cases h2 : qOk = true
    · rw [if_pos h2] at hp
      obtain ⟨r, hr, rfl⟩ := List.mem_map.mp hp
      have hr2 : r ∈ db.filter (fun r => r.user_id == u) := List.mem_mergeSort.mp hr
      simpa [ProjectRepository.mapSingleFromSupabase] using (List.mem_filter.mp hr2).2
    · rw [if_neg h2] at hp
      simpa using (List.mem_filter.mp hp).2
  · rw [if_neg h] at hp
    simpa using (List.mem_filter.mp hp).2

theorem findByUserId_src (cfg qOk : Bool) (db : List ProjectRow)
    (store : List Project) (u : String) :
    ∀ p ∈ ProjectRepository.findByUserId cfg qOk db store u,
      p ∈ store ∨ ∃ r ∈ db, p = ProjectRepository.mapSingleFromSupabase r := by
  intro p hp
  rw [ProjectRepository.findByUserId] at hp
  by_cases h : cfg = true
  · rw [if_pos h] at hp
    by_cases h2 : qOk = true
    · rw [if_pos h2] at hp
      obtain ⟨r, hr, rfl⟩ := List.mem_map.mp hp
      have hr2 : r ∈ db.filter (fun r => r.user_id == u) := List.mem_mergeSort.mp hr
      exact Or.inr ⟨r, (List.mem_filter.mp hr2).1, rfl⟩
    · rw [if_neg h2] at hp
      exact Or.inl (List.mem_filter.mp hp).1
  · rw [if_neg h] at hp
    exact Or.inl (List.mem_filter.mp hp).1

theorem findByUserId_ids_nodup (cfg qOk : Bool) (db : List ProjectRow)
    (store : List Project) (u : String)
    (hids : (store.map (fun p => p.id)).Nodup)
    (hdb : (db.map (fun r => r.id)).Nodup) :
    ((ProjectRepository.findByUserId cfg qOk db store u).map
      (fun p => p.id)).Nodup := by
  rw [ProjectRepository.findByUserId]
  by_cases h : cfg = true
  · rw [if_pos h]
    by_cases h2 : qOk = true
    · rw [if_pos h2]
      rw [List.map_map]
      rw [show ((fun p : Project => p.id) ∘ ProjectRepository.mapSingleFromSupabase)
          = fun r : ProjectRow => r.id from rfl]
      have hperm : ((db.filter (fun r => r.user_id == u)).mergeSort
          (fun a b => decide (a.created_at ≤ b.created_at))).Perm
          (db.filter (fun r => r.user_id == u)) := List.mergeSort_perm _ _
      have h3 : ((db.filter (fun r => r.user_id == u)).map (fun r => r.id)).Nodup :=
        hdb.sublist (((List.filter_sublist db)).map _)
      exact ((hperm.map _).nodup_iff).mpr h3
    · rw [if_neg h2]
      exact hids.sublist (((List.filter_sublist store)).map _)
  · rw [if_neg h]
    exact hids.sublist (((List.filter_sublist store)).map _)

theorem filter_dups_perm (l : List Project)
    (hid : (l.map (fun p => p.id)).Nodup) :
    (l.filter (fun p => (ProjectService.normalizeProjects l).2.all
        (fun d => p.id != d.id))).Perm (ProjectService.normalizeProjects l).1 := by
  obtain ⟨-, hperm, -⟩ := normalizeProjects_spec l
  have hid2 : (((ProjectService.normalizeProjects l).1
      ++ (ProjectService.normalizeProjects l).2).map (fun p => p.id)).Nodup :=
    ((hperm.map _).nodup_iff).mpr hid
  have hcross := append_map_ne (fun p : Project => p.id) _ _ hid2
  have hfilter1 : (ProjectService.normalizeProjects l).1.filter
      (fun p => (ProjectService.normalizeProjects l).2.all (fun d => p.id != d.id))
      = (ProjectService.normalizeProjects l).1 := by
    apply List.filter_eq_self.mpr
    intro p hp
    rw [List.all_eq_true]
    intro d hd
    exact bne_iff_ne.mpr (hcross p hp d hd)
  have hfilter2 : (ProjectService.normalizeProjects l).2.filter
      (fun p => (ProjectService.normalizeProjects l).2.all (fun d => p.id != d.id))
      = [] := by
    apply List.filter_eq_nil_iff.mpr
    intro d hd hall
    have := List.all_eq_true.mp hall d hd
    simp at this
  have hsplit : (((ProjectService.normalizeProjects l).1
      ++ (ProjectService.normalizeProjects l).2).filter
        (fun p => (ProjectService.normalizeProjects l).2.all
          (fun d => p.id != d.id)))
      = (ProjectService.normalizeProjects l).1 := by
    rw [List.filter_append, hfilter1, hfilter2, List.append_nil]
  exact hsplit ▸ (hperm.symm.filter _)

theorem createProject_spec (cfg rOk : Bool) (rid now : String) (db : List ProjectRow)
    (store : List Project) (uu nm : String) :
    (ProjectRepository.createProject cfg rOk rid now db store uu nm).1.id = rid ∧
    (ProjectRepository.createProject cfg rOk rid now db store uu nm).1.userId = uu ∧
    (ProjectRepository.createProject cfg rOk rid now db store uu nm).1.name = nm ∧
    (ProjectRepository.createProject cfg rOk rid now db store uu nm).2.2
      = store ++ [(ProjectRepository.createProject cfg rOk rid now db store uu nm).1] := by
  rw [ProjectRepository.createProject]
  by_cases h : (cfg && rOk) = true
  · rw [if_pos h]
    exact ⟨rfl, rfl, rfl, rfl⟩
  · rw [if_neg h]
    exact ⟨rfl, rfl, rfl, rfl⟩

theorem initFold_names (cfg : Bool) (crOk : String → Bool) (ids : String → String)
    (now uu : String) (en : List String) (ds : List String) :
    ∀ acc : List Project × List ProjectRow × List Project,
      ds.Nodup →
      ((acc.1.map (fun p => p.name)).Nodup) →
      (∀ s ∈ ds, en.contains s = false → s ∉ acc.1.map (fun p => p.name)) →
      (((ds.foldl (ProjectService.initStep cfg crOk ids now uu en) acc).1.map
          (fun p => p.name)).Nodup) := by
  induction ds with
  | nil =>
    intro acc _ h2 _
    exact h2
  | cons nm ds ih =>
    intro acc hnd h2 h3
    rw [List.foldl_cons]
    have hnd2 := List.nodup_cons.mp hnd
    by_cases hc : en.contains nm = true
    · have hstep : ProjectService.initStep cfg crOk ids now uu en acc nm = acc := by
        rw [ProjectService.initStep, if_pos hc]
      rw [hstep]
      exact ih acc hnd2.2 h2 (fun s hs => h3 s (List.mem_cons_of_mem nm hs))
    · have hcf : en.contains nm = false := by simpa using hc
      obtain ⟨-, -, hcname, -⟩ := createProject_spec cfg (crOk nm) (ids nm) now
        acc.2.1 acc.2.2 uu nm
      have hstep : ProjectService.initStep cfg crOk ids now uu en acc nm
          = (acc.1 ++ [(ProjectRepository.createProject cfg (crOk nm) (ids nm) now
              acc.2.1 acc.2.2 uu nm).1],
             (ProjectRepository.createProject cfg (crOk nm) (ids nm) now
              acc.2.1 acc.2.2 uu nm).2.1,
             (ProjectRepository.createProject cfg (crOk nm) (ids nm) now
              acc.2.1 acc.2.2 uu nm).2.2) := by
        rw [ProjectService.initStep, if_neg hc]
      rw [hstep]
      apply ih _ hnd2.2
      · rw [List.map_append]
        rw [List.nodup_append]
        refine ⟨h2, by simp, ?_⟩
        intro s hs hs2
        simp only [List.map_cons, List.map_nil, List.mem_singleton] at hs2
        rw [hs2, hcname] at hs
        exact h3 nm (List.mem_cons_self nm ds) hcf hs
      · intro s hs hsf
        rw [List.map_append]
        rw [List.mem_append]
        rintro (hmem | hmem)
        · exact h3 s (List.mem_cons_of_mem nm hs) hsf hmem
        · simp only [List.map_cons, List.map_nil, List.mem_singleton] at hmem
          rw [hcname] at hmem
          exact hnd2.1 (hmem ▸ hs)

theorem initFold_mem (cfg : Bool) (crOk : String → Bool) (ids : String → String)
    (now uu : String) (en : List String) (ds : List String) :
    ∀ acc : List Project × List ProjectRow × List Project,
      ∀ p ∈ (ds.foldl (ProjectService.initStep cfg crOk ids now uu en) acc).1,
        p ∈ acc.1 ∨ (p.userId = uu ∧ p.name ∈ ds) := by
  induction ds with
  | nil =>
    intro acc p hp
    exact Or.inl hp
  | cons nm ds ih =>
    intro acc p hp
    rw [List.foldl_cons] at hp
    by_cases hc : en.contains nm = true
    · have hstep : ProjectService.initStep cfg crOk ids now uu en acc nm = acc := by
        rw [ProjectService.initStep, if_pos hc]
      rw [hstep] at hp
      rcases ih acc p hp with h | h
      · exact Or.inl h
      · exact Or.inr ⟨h.1, List.mem_cons_of_mem nm h.2⟩
    · obtain ⟨-, hcuser, hcname, -⟩ := createProject_spec cfg (crOk nm) (ids nm) now
        acc.2.1 acc.2.2 uu nm
      have hstep : ProjectService.initStep cfg crOk ids now uu en acc nm
          = (acc.1 ++ [(ProjectRepository.createProject cfg (crOk nm) (ids nm) now
              acc.2.1 acc.2.2 uu nm).1],
             (ProjectRepository.createProject cfg (crOk nm) (ids nm) now
              acc.2.1 acc.2.2 uu nm).2.1,
             (ProjectRepository.createProject cfg (crOk nm) (ids nm) now
              acc.2.1 acc.2.2 uu nm).2.2) := by
        rw [ProjectService.initStep, if_neg hc]
      rw [hstep] at hp
      rcases ih _ p hp with h | h
      · rcases List.mem_append.mp h with h2 | h2
        · exact Or.inl h2
        · rw [List.mem_singleton] at h2
          subst h2
          exact Or.inr ⟨hcuser, by rw [hcname]; exact List.mem_cons_self nm ds⟩
      · exact Or.inr ⟨h.1, List.mem_cons_of_mem nm h.2⟩

theorem initFold_store (cfg : Bool) (crOk : String → Bool) (ids : String → String)
    (now uu : String) (en : List String) (ds : List String) :
    ∀ acc : List Project × List ProjectRow × List Project,
      ∀ p ∈ (ds.foldl (ProjectService.initStep cfg crOk ids now uu en) acc).2.2,
        p ∈ acc.2.2 ∨ ∃ s, p.id = ids s := by
  induction ds with
  | nil =>
    intro acc p hp
    exact Or.inl hp
  | cons nm ds ih =>
    intro acc p hp
    rw [List.foldl_cons] at hp
    by_cases hc : en.contains nm = true
    · have hstep : ProjectService.initStep cfg crOk ids now uu en acc nm = acc := by
        rw [ProjectService.initStep, if_pos hc]
      rw [hstep] at hp
      exact ih acc p hp
    · obtain ⟨hcid, -, -, hcstore⟩ := createProject_spec cfg (crOk nm) (ids nm) now
        acc.2.1 acc.2.2 uu nm
      have hstep : ProjectService.initStep cfg crOk ids now uu en acc nm
          = (acc.1 ++ [(ProjectRepository.createProject cfg (crOk nm) (ids nm) now
              acc.2.1 acc.2.2 uu nm).1],
             (ProjectRepository.createProject cfg (crOk nm) (ids nm) now
              acc.2.1 acc.2.2 uu nm).2.1,
             (ProjectRepository.createProject cfg (crOk nm) (ids nm) now
              acc.2.1 acc.2.2 uu nm).2.2) := by
        rw [ProjectService.initStep, if_neg hc]
      rw [hstep] at hp
      rcases ih _ p hp with h | h
      · simp only [hcstore] at h
        rcases List.mem_append.mp h with h2 | h2
        · exact Or.inl h2
        · rw [List.mem_singleton] at h2
          subst h2
          exact Or.inr ⟨nm, hcid⟩
      · exact Or.inr h

theorem contains_false_not_mem {α : Type} [BEq α] [LawfulBEq α] (l : List α) (a : α)
    (h : l.contains a = false) : a ∉ l := by
  intro hm
  simp [List.elem_iff] at h
  exact h hm

theorem gp_fixed_local (qOk2 : Bool) (delOk2 : String → Bool) (X : List ProjectRow)
    (Y : List Project) (u : String)
    (h : ((Y.filter (fun p => p.userId == u)).map (fun p => p.name)).Nodup) :
    ProjectService.getProjectsByUserId false qOk2 delOk2 X Y u
      = (Y.filter (fun p => p.userId == u), X, Y) := by
  have hnorm := normalize_nodup _ h
  show ((ProjectService.normalizeProjects (Y.filter (fun p => p.userId == u))).1,
    ((ProjectService.normalizeProjects (Y.filter (fun p => p.userId == u))).2.foldl
      (fun acc p => ProjectRepository.deleteStep false delOk2 acc p.id) (X, Y)).1,
    ((ProjectService.normalizeProjects (Y.filter (fun p => p.userId == u))).2.foldl
      (fun acc p => ProjectRepository.deleteStep false delOk2 acc p.id) (X, Y)).2)
    = (Y.filter (fun p => p.userId == u), X, Y)
  rw [hnorm]
  rfl

theorem gp_fixed_remote (delOk2 : String → Bool) (X : List ProjectRow)
    (Y : List Project) (u : String)
    (h : ((((X.filter (fun r => r.user_id == u)).mergeSort
        (fun a b => decide (a.created_at ≤ b.created_at))).map
        ProjectRepository.mapSingleFromSupabase).map (fun p => p.name)).Nodup) :
    ProjectService.getProjectsByUserId true true delOk2 X Y u
      = (((X.filter (fun r => r.user_id == u)).mergeSort
          (fun a b => decide (a.created_at ≤ b.created_at))).map
          ProjectRepository.mapSingleFromSupabase, X, Y) := by
  have hnorm := normalize_nodup _ h
  show ((ProjectService.normalizeProjects (((X.filter (fun r => r.user_id == u)).mergeSort
      (fun a b => decide (a.created_at ≤ b.created_at))).map
      ProjectRepository.mapSingleFromSupabase)).1,
    ((ProjectService.normalizeProjects (((X.filter (fun r => r.user_id == u)).mergeSort
      (fun a b => decide (a.created_at ≤ b.created_at))).map
      ProjectRepository.mapSingleFromSupabase)).2.foldl
      (fun acc p => ProjectRepository.deleteStep true delOk2 acc p.id) (X, Y)).1,
    ((ProjectService.normalizeProjects (((X.filter (fun r => r.user_id == u)).mergeSort
      (fun a b => decide (a.created_at ≤ b.created_at))).map
      ProjectRepository.mapSingleFromSupabase)).2.foldl
      (fun acc p => ProjectRepository.deleteStep true delOk2 acc p.id) (X, Y)).2)
    = (((X.filter (fun r => r.user_id == u)).mergeSort
        (fun a b => decide (a.created_at ≤ b.created_at))).map
        ProjectRepository.mapSingleFromSupabase, X, Y)
  rw [hnorm]
  rfl

/-- C7 confirmed: over both repository paths — remote rows when the remote
is configured and the select succeeds, the owner-filtered local store
otherwise — and assuming pairwise distinct entity ids in each store, both
project listings return at most one project per name: getProjectsByUserId
returns pairwise distinct names, and so does initializeDefaultProjects,
which returns the kept projects of getProjectsByUserId plus the user's
newly created missing default subjects; every kept project belongs to the
user and has the earliest createdAt among the listed projects of its name;
every later-created duplicate is deleted from the local store — also after
initializeDefaultProjects when the generated create ids are fresh — and
from the remote table whenever its remote delete succeeds; and on either
path a repeated listing leaves both stores fixed and returns the same
projects, so repeated listings converge to a name-unique project set. -/
theorem claim7_confirmed (cfg qOk : Bool) (delOk crOk : String → Bool)
    (ids : String → String) (now : String)
    (db : List ProjectRow) (store : List Project) (u : String)
    (hids : (store.map (fun p => p.id)).Nodup)
    (hdb : (db.map (fun r => r.id)).Nodup) :
    (((ProjectService.getProjectsByUserId cfg qOk delOk db store u).1.map
        (fun p => p.name)).Nodup) ∧
    (((ProjectService.initializeDefaultProjects cfg qOk delOk crOk ids now
        db store u).1.map (fun p => p.name)).Nodup) ∧
    (∀ p ∈ (ProjectService.getProjectsByUserId cfg qOk delOk db store u).1,
       p.userId = u ∧ p ∈ ProjectRepository.findByUserId cfg qOk db store u ∧
       ∀ q ∈ ProjectRepository.findByUserId cfg qOk db store u,
         q.name = p.name → p.createdAt ≤ q.createdAt) ∧
    (∀ p ∈ (ProjectService.initializeDefaultProjects cfg qOk delOk crOk ids now
        db store u).1,
       p ∈ (ProjectService.getProjectsByUserId cfg qOk delOk db store u).1 ∨
       (p.userId = u ∧ p.name ∈ ProjectService.defaultProjects)) ∧
    (∀ d ∈ (ProjectService.normalizeProjects
        (ProjectRepository.findByUserId cfg qOk db store u)).2,
       (∀ p ∈ (ProjectService.getProjectsByUserId cfg qOk delOk db store u).2.2,
          p.id ≠ d.id) ∧
       (cfg = true → delOk d.id = true →
          ∀ r ∈ (ProjectService.getProjectsByUserId cfg qOk delOk db store u).2.1,
            r.id ≠ d.id)) ∧
    ((∀ s, ∀ p ∈ store, p.id ≠ ids s) → (∀ s, ∀ r ∈ db, r.id ≠ ids s) →
       ∀ d ∈ (ProjectService.normalizeProjects
           (ProjectRepository.findByUserId cfg qOk db store u)).2,
         ∀ p ∈ (ProjectService.initializeDefaultProjects cfg qOk delOk crOk ids now
             db store u).2.2, p.id ≠ d.id) ∧
    (cfg = false → ∀ qOk2 : Bool, ∀ delOk2 : String → Bool,
       ProjectService.getProjectsByUserId false qOk2 delOk2
           (ProjectService.getProjectsByUserId cfg qOk delOk db store u).2.1
           (ProjectService.getProjectsByUserId cfg qOk delOk db store u).2.2 u
         = ((ProjectService.getProjectsByUserId cfg qOk delOk db store u).2.2.filter
              (fun p => p.userId == u),
            (ProjectService.getProjectsByUserId cfg qOk delOk db store u).2.1,
            (ProjectService.getProjectsByUserId cfg qOk delOk db store u).2.2)) ∧
    (cfg = true → qOk = true →
       (∀ d ∈ (ProjectService.normalizeProjects
           (ProjectRepository.findByUserId cfg qOk db store u)).2,
          delOk d.id = true) →
       ∀ delOk2 : String → Bool,
         ((ProjectService.getProjectsByUserId true true delOk2
             (ProjectService.getProjectsByUserId cfg qOk delOk db store u).2.1
             (ProjectService.getProjectsByUserId cfg qOk delOk db store u).2.2 u).1.Perm
           (ProjectService.getProjectsByUserId cfg qOk delOk db store u).1) ∧
         ((ProjectService.getProjectsByUserId true true delOk2
             (ProjectService.getProjectsByUserId cfg qOk delOk db store u).2.1
             (ProjectService.getProjectsByUserId cfg qOk delOk db store u).2.2 u).2.1
           = (ProjectService.getProjectsByUserId cfg qOk delOk db store u).2.1) ∧
         ((ProjectService.getProjectsByUserId true true delOk2
             (ProjectService.getProjectsByUserId cfg qOk delOk db store u).2.1
             (ProjectService.getProjectsByUserId cfg qOk delOk db store u).2.2 u).2.2
           = (ProjectService.getProjectsByUserId cfg qOk delOk db store u).2.2)) := by
  obtain ⟨hnd, hperm, hmin⟩ :=
    normalizeProjects_spec (ProjectRepository.findByUserId cfg qOk db store u)
  have howner := findByUserId_owner cfg qOk db store u
  have hidsL := findByUserId_ids_nodup cfg qOk db store u hids hdb
  have hgp22 : (ProjectService.getProjectsByUserId cfg qOk delOk db store u).2.2
      = store.filter (fun q => (ProjectService.normalizeProjects
          (ProjectRepository.findByUserId cfg qOk db store u)).2.all
            (fun d => q.id != d.id)) := by
    show ((ProjectService.normalizeProjects
        (ProjectRepository.findByUserId cfg qOk db store u)).2.foldl
        (fun acc p => ProjectRepository.deleteStep cfg delOk acc p.id) (db, store)).2 = _
    rw [deleteFold_snd]
    exact foldl_filter_eq (fun q : Project => q.id) _ store
  have hgp21 : (ProjectService.getProjectsByUserId cfg qOk delOk db store u).2.1
      = (ProjectService.normalizeProjects
          (ProjectRepository.findByUserId cfg qOk db store u)).2.foldl
          (fun s p => if cfg && delOk p.id then
            s.filter (fun r => r.id != p.id) else s) db := by
    show ((ProjectService.normalizeProjects
        (ProjectRepository.findByUserId cfg qOk db store u)).2.foldl
        (fun acc p => ProjectRepository.deleteStep cfg delOk acc p.id) (db, store)).1 = _
    rw [deleteFold_fst]
  have hlocal : ∀ d ∈ (ProjectService.normalizeProjects
      (ProjectRepository.findByUserId cfg qOk db store u)).2,
      ∀ p ∈ (ProjectService.getProjectsByUserId cfg qOk delOk db store u).2.2,
      p.id ≠ d.id := by
    intro d hd p hp
    rw [hgp22] at hp
    have hall := (List.mem_filter.mp hp).2
    simpa [bne_iff_ne] using List.all_eq_true.mp hall d hd
  have hini : ProjectService.initializeDefaultProjects cfg qOk delOk crOk ids now
      db store u
      = ProjectService.defaultProjects.foldl
          (ProjectService.initStep cfg crOk ids now u
            ((ProjectService.normalizeProjects
              (ProjectRepository.findByUserId cfg qOk db store u)).1.map
              (fun p => p.name)))
          ((ProjectService.normalizeProjects
            (ProjectRepository.findByUserId cfg qOk db store u)).1,
           (ProjectService.getProjectsByUserId cfg qOk delOk db store u).2.1,
           (ProjectService.getProjectsByUserId cfg qOk delOk db store u).2.2) := rfl
  refine ⟨hnd, ?_, ?_, ?_, ?_, ?_, ?_, ?_⟩
  · rw [hini]
    refine initFold_names cfg crOk ids now u _ ProjectService.defaultProjects _
      (by decide) hnd ?_
    intro s hs hsf hmem
    exact contains_false_not_mem _ _ hsf hmem
  · intro p hp
    have hp1 : p ∈ (ProjectService.normalizeProjects
        (ProjectRepository.findByUserId cfg qOk db store u)).1 := hp
    have hpL : p ∈ ProjectRepository.findByUserId cfg qOk db store u :=
      hperm.mem_iff.mp (List.mem_append_left _ hp1)
    exact ⟨howner p hpL, hpL, fun q hq hqname => hmin p hp1 q hq hqname⟩
  · intro p hp
    rw [hini] at hp
    rcases initFold_mem cfg crOk ids now u _ ProjectService.defaultProjects _ p hp
      with h | h
    · exact Or.inl h
    · exact Or.inr h
  · intro d hd
    refine ⟨hlocal d hd, ?_⟩
    intro hcf hdel r hr
    rw [hgp21] at hr
    refine condFold_not_mem (fun p => cfg && delOk p.id) _ db d hd ?_ r hr
    show (cfg && delOk d.id) = true
    rw [hcf, hdel]
    rfl
  · intro hf1 hf2 d hd p hp
    rw [hini] at hp
    rcases initFold_store cfg crOk ids now u _ ProjectService.defaultProjects _ p hp
      with h | h
    · exact hlocal d hd p h
    · obtain ⟨s, hps⟩ := h
      have hdL : d ∈ ProjectRepository.findByUserId cfg qOk db store u :=
        hperm.mem_iff.mp (List.mem_append_right _ hd)
      rcases findByUserId_src cfg qOk db store u d hdL with hsrc | ⟨r, hrdb, hdr⟩
      · intro heq
        apply hf1 s d hsrc
        rw [← heq]
        exact hps
      · intro heq
        apply hf2 s r hrdb
        have hid : d.id = r.id := by rw [hdr]; rfl
        rw [← hid, ← heq]
        exact hps
  · intro hcf qOk2 delOk2
    subst hcf
    have hcomm : (ProjectService.getProjectsByUserId false qOk delOk db store u).2.2.filter
        (fun p => p.userId == u)
        = (store.filter (fun p => p.userId == u)).filter
            (fun p => (ProjectService.normalizeProjects
              (ProjectRepository.findByUserId false qOk db store u)).2.all
              (fun d => p.id != d.id)) := by
      rw [hgp22, List.filter_filter, List.filter_filter]
      apply List.filter_congr
      intro q _
      exact Bool.and_comm _ _
    have hperm2 : ((ProjectService.getProjectsByUserId false qOk delOk db store u).2.2.filter
        (fun p => p.userId == u)).Perm
        (ProjectService.normalizeProjects
          (ProjectRepository.findByUserId false qOk db store u)).1 := by
      rw [hcomm]
      exact filter_dups_perm (ProjectRepository.findByUserId false qOk db store u) hidsL
    have hnames2 : (((ProjectService.getProjectsByUserId false qOk delOk db store u).2.2.filter
        (fun p => p.userId == u)).map (fun p => p.name)).Nodup :=
      ((hperm2.map _).nodup_iff).mpr hnd
    exact gp_fixed_local qOk2 delOk2 _ _ u hnames2
  · intro hcf hq hall delOk2
    subst hcf
    subst hq
    have hgp21b : (ProjectService.getProjectsByUserId true true delOk db store u).2.1
        = db.filter (fun r => (ProjectService.normalizeProjects
            (ProjectRepository.findByUserId true true db store u)).2.all
            (fun d => r.id != d.id)) := by
      rw [hgp21]
      have hext : (ProjectService.normalizeProjects
          (ProjectRepository.findByUserId true true db store u)).2.foldl
          (fun s p => if true && delOk p.id then
            s.filter (fun r => r.id != p.id) else s) db
          = (ProjectService.normalizeProjects
            (ProjectRepository.findByUserId true true db store u)).2.foldl
            (fun s p => s.filter (fun r => r.id != p.id)) db :=
        List.foldl_ext _ _ db (by intro x p hp; simp [hall p hp])
      rw [hext]
      exact foldl_filter_eq (fun r : ProjectRow => r.id) _ db
    have h1 : (ProjectService.getProjectsByUserId true true delOk db store u).2.1.filter
        (fun r => r.user_id == u)
        = (db.filter (fun r => r.user_id == u)).filter
            (fun r => (ProjectService.normalizeProjects
              (ProjectRepository.findByUserId true true db store u)).2.all
              (fun d => r.id != d.id)) := by
      rw [hgp21b, List.filter_filter, List.filter_filter]
      apply List.filter_congr
      intro r _
      exact Bool.and_comm _ _
    have h3 : (((db.filter (fun r => r.user_id == u)).filter
        (fun r => (ProjectService.normalizeProjects
          (ProjectRepository.findByUserId true true db store u)).2.all
          (fun d => r.id != d.id))).map ProjectRepository.mapSingleFromSupabase)
        = ((db.filter (fun r => r.user_id == u)).map
            ProjectRepository.mapSingleFromSupabase).filter
            (fun p => (ProjectService.normalizeProjects
              (ProjectRepository.findByUserId true true db store u)).2.all
              (fun d => p.id != d.id)) :=
      filter_comp_map ProjectRepository.mapSingleFromSupabase
        (fun p => (ProjectService.normalizeProjects
          (ProjectRepository.findByUserId true true db store u)).2.all
          (fun d => p.id != d.id)) (db.filter (fun r => r.user_id == u))
    have h4 : (((db.filter (fun r => r.user_id == u)).map
        ProjectRepository.mapSingleFromSupabase).Perm
        (ProjectRepository.findByUserId true true db store u)) :=
      ((List.mergeSort_perm _ _).map _).symm
    have h5 : ((ProjectRepository.findByUserId true true db store u).filter
        (fun p => (ProjectService.normalizeProjects
          (ProjectRepository.findByUserId true true db store u)).2.all
          (fun d => p.id != d.id))).Perm
        (ProjectService.normalizeProjects
          (ProjectRepository.findByUserId true true db store u)).1 :=
      filter_dups_perm _ hidsL
    have hfinal : (((((ProjectService.getProjectsByUserId true true delOk db store u).2.1.filter
        (fun r => r.user_id == u)).mergeSort
        (fun a b => decide (a.created_at ≤ b.created_at))).map
        ProjectRepository.mapSingleFromSupabase).Perm
        (ProjectService.normalizeProjects
          (ProjectRepository.findByUserId true true db store u)).1) := by
      refine ((List.mergeSort_perm _ _).map _).trans ?_
      rw [h1, h3]
      exact (h4.filter _).trans h5
    have hnames2 : ((((((ProjectService.getProjectsByUserId true true delOk
        db store u).2.1.filter (fun r => r.user_id == u)).mergeSort
        (fun a b => decide (a.created_at ≤ b.created_at))).map
        ProjectRepository.mapSingleFromSupabase).map (fun p => p.name)).Nodup) :=
      ((hfinal.map _).nodup_iff).mpr hnd
    have hsecond := gp_fixed_remote delOk2
      (ProjectService.getProjectsByUserId true true delOk db store u).2.1
      (ProjectService.getProjectsByUserId true true delOk db store u).2.2 u hnames2
    rw [hsecond]
    exact ⟨hfinal, rfl, rfl⟩

/-- C7 witness: the confirmed claim applied on the remote path to a remote
table holding two same-named projects of one user (a duplicate from a
race): both listings return pairwise distinct names. -/
theorem claim7_witness :
    ((([{ id := "r1", user_id := "u1", name := "Math", created_at := "2024-02-01" },
        { id := "r2", user_id := "u1", name := "Math", created_at := "2024-01-01" }]
        : List ProjectRow).map (fun r => r.id)).Nodup) ∧
    (((ProjectService.getProjectsByUserId true true (fun _ => true)
        [{ id := "r1", user_id := "u1", name := "Math", created_at := "2024-02-01" },
         { id := "r2", user_id := "u1", name := "Math", created_at := "2024-01-01" }]
        [] "u1").1.map (fun p => p.name)).Nodup) ∧
    (((ProjectService.initializeDefaultProjects true true (fun _ => true)
        (fun _ => true) (fun s => s ++ "-id") "2025-01-01"
        [{ id := "r1", user_id := "u1", name := "Math", created_at := "2024-02-01" },
         { id := "r2", user_id := "u1", name := "Math", created_at := "2024-01-01" }]
        [] "u1").1.map (fun p => p.name)).Nodup) :=
  ⟨by decide,
   (claim7_confirmed true true (fun _ => true) (fun _ => true)
      (fun s => s ++ "-id") "2025-01-01"
      [{ id := "r1", user_id := "u1", name := "Math", created_at := "2024-02-01" },
       { id := "r2", user_id := "u1", name := "Math", created_at := "2024-01-01" }]
      [] "u1" (by decide) (by decide)).1,
   (claim7_confirmed true true (fun _ => true) (fun _ => true)
      (fun s => s ++ "-id") "2025-01-01"
      [{ id := "r1", user_id := "u1", name := "Math", created_at := "2024-02-01" },
       { id := "r2", user_id := "u1", name := "Math", created_at := "2024-01-01" }]
      [] "u1" (by decide) (by decide)).2.1⟩

end TutorAI
